import Mathlib

set_option maxHeartbeats 4000000
set_option maxRecDepth 4000

attribute [local semireducible] Rat.add Rat.sub Rat.mul Rat.inv Rat.ofScientific

/-!
Verification development for a clinical lab-report normalization pipeline.
The pipeline classifies raw text lines, parses them with ordered regex
grammars, resolves test names against a reference catalog, computes a
status and confidence from reference ranges, and defends the output with
a hallucination guardrail.  Strings are modelled as lists of characters,
Python floats as rationals, and `round(x, 2)` as exact half-even decimal
rounding.
-/

/-- Strings are modelled as lists of characters. -/
abbrev Str := List Char

/-- Coerce a Lean string literal to the character-list model. -/
def str (s : String) : Str := s.data

/-- Python whitespace characters (the ASCII part of `\s`). -/
def pyIsSpace (c : Char) : Bool :=
  c = ' ' || c = '\t' || c = '\n' || c = '\r' || c = '\x0b' || c = '\x0c'

/-- ASCII letter test, mirroring the `[A-Za-z]` character class. -/
def isAlphaAscii (c : Char) : Bool :=
  (('a' ≤ c) && (c ≤ 'z')) || (('A' ≤ c) && (c ≤ 'Z'))

/-- ASCII digit test, mirroring the `\d` character class. -/
def isDigitAscii (c : Char) : Bool :=
  ('0' ≤ c) && (c ≤ '9')

/-- Lower-case an ASCII character, mirroring `str.lower` on ASCII input. -/
def toLowerCh (c : Char) : Char :=
  if ('A' ≤ c) && (c ≤ 'Z') then Char.ofNat (c.toNat + 32) else c

/-- Lower-case a whole string. -/
def lowerStr (s : Str) : Str := s.map toLowerCh

/-- Python `str.strip`: drop whitespace from both ends. -/
def pyStrip (s : Str) : Str :=
  ((s.dropWhile pyIsSpace).reverse.dropWhile pyIsSpace).reverse

/-- Word character for the regex `\b` boundary: ASCII letter, digit or underscore. -/
def isWordCh (c : Char) : Bool :=
  isAlphaAscii c || isDigitAscii c || c = '_'

/-- Whether `pat` occurs as a contiguous substring of `s` (Python `in` on strings). -/
def substrOf (pat s : Str) : Bool :=
  (List.range (s.length + 1)).any (fun i => (s.drop i).take pat.length = pat)

/-- Worker for `pySplitWs`: `cur` is the current token accumulated in reverse. -/
def splitWsGo : Str → Str → List Str
  | cur, [] => if cur = [] then [] else [cur.reverse]
  | cur, c :: rest =>
    if pyIsSpace c then
      if cur = [] then splitWsGo [] rest else cur.reverse :: splitWsGo [] rest
    else splitWsGo (c :: cur) rest

/-- Python `str.split()` with no argument: split on whitespace runs, dropping empties. -/
def pySplitWs (s : Str) : List Str := splitWsGo [] s

/-- Whether the character at index `i` of `s` is a word character (out of range counts as not). -/
def wordAt (s : Str) (i : Nat) : Bool :=
  match s.get? i with
  | some c => isWordCh c
  | none => false

/-- Whether a regex word boundary `\b` holds at position `i` of `s`. -/
def boundaryAt (s : Str) (i : Nat) : Bool :=
  if i = 0 then wordAt s 0
  else wordAt s (i - 1) != wordAt s i

/-- Search for the literal `kw` surrounded by `\b` word boundaries anywhere in `s`,
mirroring `re.search(rf"\b{re.escape(kw)}\b", s)` for a literal keyword. -/
def wordSearch (kw s : Str) : Bool :=
  (List.range (s.length + 1)).any (fun i =>
    (s.drop i).take kw.length = kw && boundaryAt s i && boundaryAt s (i + kw.length))

/-- Python `round(x, 2)` on the idealized rational value: round `100 x` to the
nearest integer with ties to even, then divide by 100. -/
def roundHalfEven (x : ℚ) : ℤ :=
  if x - (⌊x⌋ : ℚ) < 1/2 then ⌊x⌋
  else if 1/2 < x - (⌊x⌋ : ℚ) then ⌊x⌋ + 1
  else if Even ⌊x⌋ then ⌊x⌋ else ⌊x⌋ + 1

/-- Round a rational to two decimal places (Python `round(x, 2)`). -/
def round2 (x : ℚ) : ℚ := (roundHalfEven (x * 100) : ℚ) / 100

/-- Capture groups of a regex match: group index paired with matched text. -/
abbrev Caps := List (Nat × Str)

/-- Regular expressions as used by the parser patterns.  Stars and pluses only
ever apply to single-character classes in those patterns, which keeps the
matcher structurally recursive. -/
inductive RE where
  | eps : RE
  | chr (p : Char → Bool) : RE
  | cat (a b : RE) : RE
  | alt (a b : RE) : RE
  | starG (p : Char → Bool) : RE
  | starL (p : Char → Bool) : RE
  | optG (a : RE) : RE
  | grp (i : Nat) (a : RE) : RE

/-- Greedy plus `p+` of a character class. -/
def RE.plusG (p : Char → Bool) : RE := .cat (.chr p) (.starG p)

/-- Lazy plus `p+?` of a character class. -/
def RE.plusL (p : Char → Bool) : RE := .cat (.chr p) (.starL p)

/-- Literal string as a regex. -/
def RE.lit (w : Str) : RE := w.foldr (fun c r => .cat (.chr (fun d => d = c)) r) .eps

/-- All matches of a regex against a prefix of `s`, in the backtracking order
used by the Python `re` engine: each element is the remaining suffix paired
with the captures recorded so far. -/
def matchList : RE → Str → List (Str × Caps)
  | .eps, s => [(s, [])]
  | .chr _, [] => []
  | .chr p, c :: s => if p c then [(s, [])] else []
  | .cat a b, s =>
    (matchList a s).flatMap (fun x =>
      (matchList b x.1).map (fun y => (y.1, x.2 ++ y.2)))
  | .alt a b, s => matchList a s ++ matchList b s
  | .starG p, s =>
    let n := (s.takeWhile p).length
    (List.range (n + 1)).map (fun k => (s.drop (n - k), []))
  | .starL p, s =>
    let n := (s.takeWhile p).length
    (List.range (n + 1)).map (fun k => (s.drop k, []))
  | .optG a, s => matchList a s ++ [(s, [])]
  | .grp i a, s =>
    (matchList a s).map (fun x => (x.1, (i, s.take (s.length - x.1.length)) :: x.2))

/-- Captures of the first complete match of an anchored pattern `^re$` against
`s`, exactly as `re.search` returns it for the anchored patterns used here. -/
def fullMatchCaps (re : RE) (s : Str) : Option Caps :=
  (((matchList re s).filter (fun x => x.1 = [])).head?).map (fun x => x.2)

/-- Whether an anchored pattern matches the whole string. -/
def fullMatches (re : RE) (s : Str) : Bool :=
  (fullMatchCaps re s).isSome

/-- Character class `[A-Za-z\s\(\)\-]` used for test names in the Standard and
WithReference patterns. -/
def nameCls (c : Char) : Bool :=
  isAlphaAscii c || pyIsSpace c || c = '(' || c = ')' || c = '-'

/-- Character class `[A-Za-z\s\(\)]` used for test names in the Colon pattern. -/
def colonNameCls (c : Char) : Bool :=
  isAlphaAscii c || pyIsSpace c || c = '(' || c = ')'

/-- Character class `[\d.,]` used for numeric values. -/
def valCls (c : Char) : Bool :=
  isDigitAscii c || c = '.' || c = ','

/-- Character class `[a-zA-Z%/\-\s\^0-9]` used for units. -/
def unitCls (c : Char) : Bool :=
  isAlphaAscii c || c = '%' || c = '/' || c = '-' || pyIsSpace c || c = '^' || isDigitAscii c

/-- Alternation `Low|High|Normal|low|high|normal|LOW|HIGH|NORMAL` in source order. -/
def statusAlt : RE :=
  .alt (.lit (str (r"Low"))) (.alt (.lit (str (r"High"))) (.alt (.lit (str (r"Normal")))
    (.alt (.lit (str (r"low"))) (.alt (.lit (str (r"high"))) (.alt (.lit (str (r"normal")))
      (.alt (.lit (str (r"LOW"))) (.alt (.lit (str (r"HIGH"))) (.lit (str (r"NORMAL"))))))))))

/-- Optional status tail `(?:\s*[\(\[]?(Low|...|NORMAL)[\)\]]?)?` of the Standard pattern
(the optional group itself is added with `optG` at the use site). -/
def statusTail : RE :=
  .cat (.starG pyIsSpace)
    (.cat (.optG (.chr (fun c => c = '(' || c = '[')))
      (.cat (.grp 4 statusAlt) (.optG (.chr (fun c => c = ')' || c = ']')))))

/-- Standard pattern
`^([A-Za-z][A-Za-z\s\(\)\-]+?)\s+([\d.,]+)\s*([a-zA-Z%/\-\s\^0-9]*?)(?:\s*[\(\[]?(Low|...|NORMAL)[\)\]]?)?$`. -/
def stdRE : RE :=
  .cat (.grp 1 (.cat (.chr isAlphaAscii) (.plusL nameCls)))
    (.cat (.plusG pyIsSpace)
      (.cat (.grp 2 (.plusG valCls))
        (.cat (.starG pyIsSpace)
          (.cat (.grp 3 (.starL unitCls)) (.optG statusTail)))))

/-- WithReference pattern
`^([A-Za-z][A-Za-z\s\(\)\-]+?)\s+([\d.,]+)\s+[\d.,]+\s*[-–]\s*[\d.,]+\s+([a-zA-Z%/\-\s\^0-9]+)$`. -/
def refRE : RE :=
  .cat (.grp 1 (.cat (.chr isAlphaAscii) (.plusL nameCls)))
    (.cat (.plusG pyIsSpace)
      (.cat (.grp 2 (.plusG valCls))
        (.cat (.plusG pyIsSpace)
          (.cat (.plusG valCls)
            (.cat (.starG pyIsSpace)
              (.cat (.chr (fun c => c = '-' || c = '–'))
                (.cat (.starG pyIsSpace)
                  (.cat (.plusG valCls)
                    (.cat (.plusG pyIsSpace) (.grp 3 (.plusG unitCls)))))))))))

/-- Colon pattern `^([A-Za-z][A-Za-z\s\(\)]+?):\s*([\d.,]+)\s*([a-zA-Z%/\-\s\^0-9]*)$`. -/
def colonRE : RE :=
  .cat (.grp 1 (.cat (.chr isAlphaAscii) (.plusL colonNameCls)))
    (.cat (.chr (fun c => c = ':'))
      (.cat (.starG pyIsSpace)
        (.cat (.grp 2 (.plusG valCls))
          (.cat (.starG pyIsSpace) (.grp 3 (.starG unitCls))))))

/-- Blacklisted header/metadata keywords from `TestLineParser.non_test_keywords`. -/
def nonTestKeywords : List Str :=
  [str (r"address"), str (r"phone"), str (r"contact"), str (r"mobile"), str (r"clinic"),
   str (r"doctor"), str (r"dr."), str (r"patient"), str (r"name"), str (r"age"),
   str (r"sex"), str (r"gender"), str (r"id"), str (r"invoice"), str (r"bill"),
   str (r"report"), str (r"email"), str (r"dob"), str (r"lab"), str (r"registration"),
   str (r"regno"), str (r"date"), str (r"page"), str (r"generated"), str (r"printed"),
   str (r"collected"), str (r"reported"), str (r"registered"), str (r"sample"),
   str (r"specimen"), str (r"pid"), str (r"visit"), str (r"ref no"), str (r"number"),
   str (r"hospital"), str (r"center"), str (r"centre"), str (r"healthcare"),
   str (r"diagnostic"), str (r"pathology"), str (r"time"), str (r"jan"), str (r"feb"),
   str (r"mar"), str (r"apr"), str (r"may"), str (r"jun"), str (r"jul"), str (r"aug"),
   str (r"sep"), str (r"oct"), str (r"nov"), str (r"dec"), str (r"monday"),
   str (r"tuesday"), str (r"wednesday"), str (r"thursday"), str (r"friday"),
   str (r"saturday"), str (r"sunday"), str (r"road"), str (r"street"), str (r"avenue"),
   str (r"city"), str (r"state"), str (r"pin"), str (r"zip"), str (r"complex"),
   str (r"bungalow"), str (r"floor"), str (r"building"), str (r"deficiency"),
   str (r"deficiencies"), str (r"instrument"), str (r"method"), str (r"methodology"),
   str (r"technician"), str (r"pathologist"), str (r"signature"), str (r"verified"),
   str (r"approved")]

/-- Valid medical test units from `TestLineParser.valid_units`. -/
def validUnits : List Str :=
  [str (r"g/dl"), str (r"g/l"), str (r"mg/dl"), str (r"mg/l"), str (r"ug/dl"),
   str (r"ng/dl"), str (r"pg/ml"), str (r"ng/ml"), str (r"mmol/l"), str (r"umol/l"),
   str (r"meq/l"), str (r"iu/l"), str (r"u/l"), str (r"iu/ml"), str (r"miu/ml"),
   str (r"%"), str (r"mm/hr"), str (r"sec"), str (r"seconds"), str (r"minutes"),
   str (r"fl"), str (r"pg"), str (r"/ul"), str (r"/cumm"), str (r"/mm3"),
   str (r"cells/ul"), str (r"cells/cumm"), str (r"mill/cumm"), str (r"million/ul"),
   str (r"million/cumm"), str (r"lac/cumm"), str (r"lakh/cumm"), str (r"thou/ul"),
   str (r"thousand/ul"), str (r"k/ul"), str (r"x10^3/ul"), str (r"x10^6/ul"),
   str (r"x10^9/l"), str (r"ratio"), str (r"index"), str (r"score")]

/-- One alternative of a known-test pattern: literal parts separated by `\s*`,
with an optional trailing `\b` boundary. -/
structure PatAlt where
  parts : List Str
  endB : Bool
deriving DecidableEq

/-- Skip the maximal whitespace run of `s` starting at position `i`. -/
def skipWs (s : Str) (i : Nat) : Nat :=
  i + ((s.drop i).takeWhile pyIsSpace).length

/-- Match literal parts separated by `\s*` starting exactly at position `i` of `s`,
returning the end position.  Since every part starts with a non-whitespace
character, skipping the maximal whitespace run is equivalent to the greedy
`\s*` of the source pattern. -/
def partsMatchAt (s : Str) : List Str → Nat → Option Nat
  | [], i => some i
  | p :: ps, i =>
    if (s.drop i).take p.length = p then
      match ps with
      | [] => some (i + p.length)
      | _ => partsMatchAt s ps (skipWs s (i + p.length))
    else none

/-- Search one pattern alternative anywhere in `s` (`re.search` semantics). -/
def altSearch (s : Str) (a : PatAlt) : Bool :=
  (List.range (s.length + 1)).any (fun i =>
    match partsMatchAt s a.parts i with
    | some j => if a.endB then boundaryAt s j else true
    | none => false)

/-- Search a whole known-test pattern (an alternation of alternatives) in `s`. -/
def patSearch (s : Str) (alts : List PatAlt) : Bool := alts.any (altSearch s)

/-- Plain one-part alternative. -/
def pa (w : String) : PatAlt := ⟨[str w], false⟩

/-- One-part alternative with a trailing `\b`. -/
def pab (w : String) : PatAlt := ⟨[str w], true⟩

/-- Two-part alternative with `\s*` between the parts. -/
def pa2 (w1 w2 : String) : PatAlt := ⟨[str w1, str w2], false⟩

/-- Three-part alternative with `\s*` between the parts. -/
def pa3 (w1 w2 w3 : String) : PatAlt := ⟨[str w1, str w2, str w3], false⟩

/-- Known medical test name patterns from `TestLineParser.known_test_patterns`. -/
def knownTestPatterns : List (List PatAlt) :=
  [[pa (r"hemoglobin"), pa (r"haemoglobin"), pa (r"hgb"), pab (r"hb")],
   [pa (r"wbc"), pa3 (r"white") (r"blood") (r"cell"), pa (r"leukocyte"), pa (r"leucocyte")],
   [pa (r"rbc"), pa3 (r"red") (r"blood") (r"cell"), pa (r"erythrocyte")],
   [pa (r"platelet"), pa (r"plt"), pa (r"thrombocyte")],
   [pa (r"hematocrit"), pa (r"haematocrit"), pa (r"hct"), pa (r"pcv")],
   [pa (r"mcv"), pa (r"mch"), pa (r"mchc"), pa (r"rdw"), pa (r"mpv"), pa (r"pdw"),
    pa (r"pct"), pa (r"p-lcr"), pa (r"plcr")],
   [pa (r"neutrophil"), pa (r"lymphocyte"), pa (r"monocyte"), pa (r"eosinophil"),
    pa (r"basophil")],
   [pa (r"glucose"), pa (r"sugar"), pa (r"fbs"), pa (r"fasting"), pa (r"ppbs"),
    pa (r"random")],
   [pa (r"cholesterol"), pa (r"triglyceride"), pa (r"ldl"), pa (r"hdl"), pa (r"vldl")],
   [pa (r"creatinine"), pa (r"urea"), pa (r"bun"), pa2 (r"blood") (r"urea")],
   [pa (r"bilirubin"), pa (r"sgpt"), pa (r"sgot"), pa (r"alt"), pa (r"ast"),
    pa (r"alp"), pa2 (r"alkaline") (r"phosphatase")],
   [pa (r"protein"), pa (r"albumin"), pa (r"globulin")],
   [pa (r"sodium"), pa (r"potassium"), pa (r"chloride"), pa (r"calcium"),
    pa (r"magnesium"), pa (r"phosphorus")],
   [pa (r"tsh"), pa (r"t3"), pa (r"t4"), pa (r"thyroid")],
   [pa2 (r"uric") (r"acid"), pa (r"urate")],
   [pa (r"iron"), pa (r"ferritin"), pa (r"tibc")],
   [pa (r"vitamin"), pa (r"folate"), pa (r"folic")],
   [pa (r"hba1c"), pa (r"glycated"), pa (r"glycosylated")],
   [pa (r"esr"), pa2 (r"sed") (r"rate"), pa (r"sedimentation")],
   [pa (r"psa"), pa (r"prostate")],
   [pa (r"ck"), pa (r"cpk"), pa (r"ldh"), pa (r"troponin")],
   [pa (r"amylase"), pa (r"lipase")],
   [pa (r"ggt"), pa (r"gamma")],
   [pa (r"inr"), pa (r"pt"), pa (r"ptt"), pa (r"aptt"), pa (r"prothrombin")],
   [pa2 (r"total") (r"count"), pa2 (r"differential") (r"count"), pab (r"dc"), pab (r"tc")]]

/-- Natural number denoted by a string of ASCII digits. -/
def natOfDigits (s : Str) : Nat :=
  s.foldl (fun a c => a * 10 + (c.toNat - 48)) 0

/-- Python `float(s)` restricted to the strings that can reach it here: after
comma removal the argument consists of digits and dots only, and `float`
accepts it exactly when it is nonempty, has at most one dot and at least one
digit.  The resulting binary float is idealized as the exact rational. -/
def pyFloat (s : Str) : Option ℚ :=
  if s.all (fun c => isDigitAscii c || c = '.') && (s.count '.' ≤ 1 : Bool)
      && s.any isDigitAscii then
    let intPart := s.takeWhile (fun c => c ≠ '.')
    let fracPart := (s.dropWhile (fun c => c ≠ '.')).drop 1
    some ((natOfDigits intPart : ℚ) + (natOfDigits fracPart : ℚ) / ((10 : ℚ) ^ fracPart.length))
  else none

/-- Fuel-indexed worker for `cleanCommas`. -/
def cleanCommasAux : Nat → Str → Str
  | 0, _ => []
  | _ + 1, [] => []
  | fuel + 1, c :: rest =>
    if c = ',' then ' ' :: cleanCommasAux fuel (rest.dropWhile pyIsSpace)
    else c :: cleanCommasAux fuel rest

/-- Python `re.sub(r",\s*", " ", line)`: replace every comma and following
whitespace run by a single space. -/
def cleanCommas (s : Str) : Str := cleanCommasAux s.length s

/-- Pattern `\s*[\d.-]+\s*-?\s*[\d.]*` of the trailing reference-range cleanup
(the `$` anchor is applied by `stripTrailingRef` via a full-suffix match). -/
def refStripRE : RE :=
  .cat (.starG pyIsSpace)
    (.cat (.plusG (fun c => isDigitAscii c || c = '.' || c = '-'))
      (.cat (.starG pyIsSpace)
        (.cat (.optG (.chr (fun c => c = '-')))
          (.cat (.starG pyIsSpace) (.starG (fun c => isDigitAscii c || c = '.'))))))

/-- Python `re.sub(r"\s*[\d.-]+\s*-?\s*[\d.]*$", "", unit)`: delete the leftmost
match that extends to the end of the string, if any. -/
def stripTrailingRef (u : Str) : Str :=
  match (List.range (u.length + 1)).find? (fun i => fullMatches refStripRE (u.drop i)) with
  | some i => u.take i
  | none => u

/-- Whether a test name matches one of the known test patterns
(`re.search(pattern, lower_name)` over `known_test_patterns`). -/
def knownNameHit (nm : Str) : Bool :=
  knownTestPatterns.any (fun alts => patSearch (lowerStr nm) alts)

/-- Whether a recognized unit token occurs inside the unit string. -/
def unitHit (u : Str) : Bool :=
  validUnits.any (fun vu => substrOf vu (lowerStr u))

/-- Python truthiness of the optional status string. -/
def statusTruthy : Option Str → Bool
  | none => false
  | some s => s ≠ []

/-- Mirror of `TestLineParser._calculate_confidence`. -/
def calculate_confidence (test_name : Str) (value : Option ℚ) (unit : Str)
    (status : Option Str) : ℚ :=
  let c1 : ℚ := 0.5 + (if knownNameHit test_name then 0.2 else 0)
  let c2 : ℚ := c1 + (if unit ≠ [] ∧ unitHit unit then 0.15 else 0)
  let c3 : ℚ := c2 +
    (if (match value with
         | some v => decide (0 < v) && decide (v < 100000)
         | none => false) then 0.1 else 0)
  let c4 : ℚ := c3 + (if statusTruthy status then 0.05 else 0)
  min c4 1

/-- Existence of the shape `[a-zA-Z]+\s+[\d.]+` anywhere in the line:
an ASCII letter followed by a nonempty whitespace run followed by a digit
or dot (equivalent to `re.search(r"[a-zA-Z]+\s+[\d.]+", line)`). -/
def shapeHit (s : Str) : Bool :=
  (List.range s.length).any (fun j =>
    match s.get? j with
    | some c =>
      isAlphaAscii c &&
        (let rest := s.drop (j + 1)
         let wsRun := rest.takeWhile pyIsSpace
         decide (1 ≤ wsRun.length) &&
           (match (rest.drop wsRun.length).head? with
            | some d => isDigitAscii d || d = '.'
            | none => false))
    | none => false)

/-- Mirror of `TestLineParser._is_likely_test_line`. -/
def is_likely_test_line (line : Str) : Bool :=
  let lower := pyStrip (lowerStr line)
  if lower.length < 5 || decide (200 < lower.length) then false
  else if line ≠ [] && decide (6 * line.length < 10 * line.countP isDigitAscii) then false
  else if nonTestKeywords.any (fun kw => wordSearch kw lower) then false
  else if knownTestPatterns.any (fun alts => patSearch lower alts) then true
  else if validUnits.any (fun u => substrOf u lower) then true
  else shapeHit line

/-- Mirror of the `ParsedTest` dataclass. -/
structure ParsedTest where
  name : Option Str
  value : Option ℚ
  unit : Option Str
  status : Option Str
  raw_line : Str
  confidence : ℚ
deriving DecidableEq

/-- Group text of a capture list. -/
def capStr (caps : Caps) (i : Nat) : Option Str := caps.lookup i

/-- Mirror of `TestLineParser._try_parse_standard_format`. -/
def try_parse_standard_format (line : Str) : Option ParsedTest :=
  let clean_line := cleanCommas line
  match fullMatchCaps stdRE clean_line with
  | none => none
  | some caps =>
    let test_name := pyStrip ((capStr caps 1).getD [])
    let value_str := (pyStrip ((capStr caps 2).getD [])).filter (fun c => c ≠ ',')
    let unit0 :=
      match capStr caps 3 with
      | some g => if g = [] then [] else pyStrip g
      | none => []
    let unit := pyStrip (stripTrailingRef unit0)
    let status := (capStr caps 4).map lowerStr
    match pyFloat value_str with
    | none => none
    | some v =>
      some ⟨some test_name, some v, some unit, status, line,
        calculate_confidence test_name (some v) unit status⟩

/-- Mirror of `TestLineParser._try_parse_with_reference`. -/
def try_parse_with_reference (line : Str) : Option ParsedTest :=
  let clean_line := cleanCommas line
  match fullMatchCaps refRE clean_line with
  | none => none
  | some caps =>
    let test_name := pyStrip ((capStr caps 1).getD [])
    let value_str := (pyStrip ((capStr caps 2).getD [])).filter (fun c => c ≠ ',')
    let unit := pyStrip ((capStr caps 3).getD [])
    match pyFloat value_str with
    | none => none
    | some v =>
      some ⟨some test_name, some v, some unit, none, line,
        calculate_confidence test_name (some v) unit none⟩

/-- Mirror of `TestLineParser._try_parse_colon_format`. -/
def try_parse_colon_format (line : Str) : Option ParsedTest :=
  match fullMatchCaps colonRE line with
  | none => none
  | some caps =>
    let test_name := pyStrip ((capStr caps 1).getD [])
    let value_str := (pyStrip ((capStr caps 2).getD [])).filter (fun c => c ≠ ',')
    let unit0 :=
      match capStr caps 3 with
      | some g => if g = [] then [] else pyStrip g
      | none => []
    match pyFloat value_str with
    | none => none
    | some v =>
      some ⟨some test_name, some v, some unit0, none, line,
        calculate_confidence test_name (some v) unit0 none⟩

/-- Null candidate returned for unclassified or unparsable lines. -/
def nullParsed (line : Str) : ParsedTest := ⟨none, none, none, none, line, 0⟩

/-- Whether a strategy result carries a numeric value
(Python `if result and result.value is not None`). -/
def yieldsValue : Option ParsedTest → Bool
  | some r => r.value.isSome
  | none => false

/-- Mirror of `TestLineParser.parse_line`. -/
def parse_line (line0 : Str) : ParsedTest :=
  let line := pyStrip line0
  if ¬ is_likely_test_line line then nullParsed line
  else if yieldsValue (try_parse_standard_format line) then
    (try_parse_standard_format line).getD (nullParsed line)
  else if yieldsValue (try_parse_with_reference line) then
    (try_parse_with_reference line).getD (nullParsed line)
  else if yieldsValue (try_parse_colon_format line) then
    (try_parse_colon_format line).getD (nullParsed line)
  else nullParsed line

/-- Mirror of `TestLineParser.parse_multiple_lines`: strip each line, skip empty
lines, parse the rest and keep only candidates with a numeric value. -/
def parse_multiple_lines (lines : List Str) : List ParsedTest :=
  lines.filterMap (fun l0 =>
    let l := pyStrip l0
    if l = [] then none
    else
      let p := parse_line l
      if p.value.isSome then some p else none)

/-- One dynamic-programming step of the longest-common-subsequence table:
`ys` and the tail of the previous row are walked in parallel; `diag` and
`left` are the entries above-left and to the left of the current cell. -/
def lcsGo (x : Char) : List Char → List Nat → Nat → Nat → List Nat
  | [], _, _, _ => []
  | _ :: _, [], _, _ => []
  | y :: ys, pj :: ps, diag, left =>
    let cur := if x = y then diag + 1 else max left pj
    cur :: lcsGo x ys ps pj cur

/-- Length of the longest common subsequence of two character lists. -/
def lcsLen (xs ys : Str) : Nat :=
  (xs.foldl (fun prev x => 0 :: lcsGo x ys (prev.drop 1) (prev.headD 0) 0)
    (List.replicate (ys.length + 1) 0)).getLastD 0

/-- Normalized InDel similarity on a 0–100 scale, as used by `rapidfuzz.fuzz.ratio`:
`100 · (1 − indel_distance/(len1+len2)) = 200 · lcs/(len1+len2)`. -/
def indelScore (a b : Str) : ℚ :=
  if a.length + b.length = 0 then 100
  else 200 * (lcsLen a b : ℚ) / ((a.length : ℚ) + (b.length : ℚ))

/-- Lexicographic comparison of character lists by code point (Python `<` on strings). -/
def strLtB : Str → Str → Bool
  | [], [] => false
  | [], _ :: _ => true
  | _ :: _, [] => false
  | a :: as, b :: bs => if a < b then true else if b < a then false else strLtB as bs

/-- Insert into a sorted list of strings. -/
def insertSorted (x : Str) : List Str → List Str
  | [] => [x]
  | y :: ys => if strLtB x y then x :: y :: ys else y :: insertSorted x ys

/-- Sort a list of strings ascending (Python `sorted`). -/
def sortStrs (l : List Str) : List Str := l.foldr insertSorted []

/-- Remove duplicates keeping first occurrences (Python `set` then iteration,
deterministic here because the result is sorted afterwards). -/
def dedupGo : List Str → List Str → List Str
  | _, [] => []
  | seen, x :: xs =>
    if seen.contains x then dedupGo seen xs else x :: dedupGo (x :: seen) xs

/-- Token set of a string: whitespace-split tokens without duplicates, sorted. -/
def tokenSet (s : Str) : List Str := sortStrs (dedupGo [] (pySplitWs s))

/-- Join tokens with single spaces (Python `" ".join`). -/
def joinSp (ws : List Str) : Str := List.intercalate [' '] ws

/-- Concatenate two joined token groups with a separating space when both are
nonempty (forming `sect`, `sect + " " + diff_ab`, …). -/
def joinGroups (x y : Str) : Str :=
  if x = [] then y else if y = [] then x else x ++ ' ' :: y

/-- Mirror of `rapidfuzz.fuzz.token_set_ratio` (no processor): compare the sorted
token sets of the two strings, returning the maximum normalized InDel
similarity over the recombined intersection/difference strings. -/
def tokenSetScore (s1 s2 : Str) : ℚ :=
  let ta := tokenSet s1
  let tb := tokenSet s2
  if ta = [] ∨ tb = [] then 0
  else
    let inter := ta.filter (fun t => tb.contains t)
    let dab := ta.filter (fun t => ¬ tb.contains t)
    let dba := tb.filter (fun t => ¬ ta.contains t)
    if inter ≠ [] ∧ (dab = [] ∨ dba = []) then 100
    else
      let t0 := joinSp inter
      let t1 := joinGroups t0 (joinSp dab)
      let t2 := joinGroups t0 (joinSp dba)
      max (indelScore t1 t2) (max (indelScore t0 t1) (indelScore t0 t2))

/-- Mirror of `rapidfuzz.process.extractOne` with the token-set scorer: scan the
choices keeping the first one with the strictly highest score; `none` only
for an empty choice list. -/
def extractOne (query : Str) (choices : List Str) : Option (Str × ℚ) :=
  choices.foldl
    (fun acc c =>
      match acc with
      | none => some (c, tokenSetScore query c)
      | some (b, s) =>
        let s2 := tokenSetScore query c
        if s < s2 then some (c, s2) else some (b, s))
    none

/-- Reference range of a catalog entry; a missing bound is `none`. -/
structure RefRange where
  low : Option ℚ
  high : Option ℚ
deriving DecidableEq

/-- Catalog entry for one canonical test
(`reference_ranges.json` record: unit, reference_range, category). -/
structure TestInfo where
  unit : Option Str
  reference_range : Option RefRange
  category : Option Str
deriving DecidableEq

/-- Reference catalog: canonical names, per-name configuration, and the
lower-cased alias map built by `ConfigLoader.get_all_aliases`.  The catalog
data file is external input; the claims quantify over it. -/
structure Catalog where
  canonical_names : List Str
  infos : List (Str × TestInfo)
  alias_map : List (Str × Str)
deriving DecidableEq

/-- Fuzzy-alias stage (d) of `TestNormalizer._find_canonical_name`. -/
def fuzzyAliasStage (cat : Catalog) (θ : ℚ) (clean : Str) : Option Str :=
  match extractOne clean (cat.alias_map.map Prod.fst) with
  | some (bestKey, score) =>
    if θ ≤ score then cat.alias_map.lookup bestKey else none
  | none => none

/-- Mirror of `TestNormalizer._find_canonical_name`. -/
def find_canonical_name (cat : Catalog) (θ : ℚ) (test_name : Option Str) : Option Str :=
  match test_name with
  | none => none
  | some nm0 =>
    if nm0 = [] then none
    else
      let clean := lowerStr (pyStrip nm0)
      match cat.canonical_names.find? (fun c => lowerStr c = clean) with
      | some c => some c
      | none =>
        match cat.alias_map.lookup clean with
        | some c => some c
        | none =>
          match extractOne clean cat.canonical_names with
          | some (best, score) =>
            if θ ≤ score then some best else fuzzyAliasStage cat θ clean
          | none => fuzzyAliasStage cat θ clean

/-- Mirror of `TestNormalizer._compute_status`.  The result is `none` exactly
when the Python code raises `ZeroDivisionError` (equal reference bounds);
otherwise it is the `(status, round(confidence, 2))` pair, with `none` status
playing the role of the unknown outcome. -/
def compute_status (value : Option ℚ) (rr : Option RefRange) : Option (Option Str × ℚ) :=
  match value with
  | none => some (none, 0)
  | some v =>
    let low : Option ℚ := match rr with | none => none | some r => r.low
    let high : Option ℚ := match rr with | none => none | some r => r.high
    match low, high with
    | some l, some h =>
      if h = l then none
      else
        let status : Str :=
          if v < l then str (r"low") else if h < v then str (r"high") else str (r"normal")
        let confidence : ℚ :=
          if status = str (r"normal") then
            let lower_dist := |v - l| / (h - l)
            let upper_dist := |h - v| / (h - l)
            0.7 + min lower_dist upper_dist * 0.3
          else
            let range_size := h - l
            let distance_from_range := min (|v - l|) (|v - h|)
            min 0.95 (0.7 + distance_from_range / range_size * 0.25)
        some (some status, round2 confidence)
    | _, _ => some (none, 0)

/-- Mirror of `TestNormalizer._calculate_name_confidence`. -/
def calculate_name_confidence (cat : Catalog) (original normalized : Str) : ℚ :=
  if original = [] ∨ normalized = [] then 0
  else if lowerStr original = lowerStr normalized then 1
  else
    let fuzzy := min (tokenSetScore (lowerStr original) (lowerStr normalized) / 100) 1
    match cat.alias_map.lookup (lowerStr original) with
    | some c => if c = normalized then 0.95 else fuzzy
    | none => fuzzy

/-- Normalized test record emitted by `TestNormalizer.normalize_test`. -/
structure NormalizedTest where
  name : Str
  value : Option ℚ
  unit : Option Str
  test_status : Option Str
  ref_low : Option ℚ
  ref_high : Option ℚ
  category : Str
  normalization_confidence : ℚ
  parse_confidence : ℚ
deriving DecidableEq

/-- Outcome of `TestNormalizer.normalize_test`: the ok record, a failure with
its reason, or a caught exception. -/
inductive NormOutcome where
  | ok (t : NormalizedTest)
  | failed (reason : Str)
  | error (msg : Str)
deriving DecidableEq

/-- Mirror of `TestNormalizer.normalize_test`.  The `error` cases correspond to
the exceptions caught by its `except` block: a `ZeroDivisionError` from equal
reference bounds, or a `KeyError` when a resolved entry has no
`reference_range` record. -/
def normalize_test (cat : Catalog) (θ : ℚ) (pt : ParsedTest) : NormOutcome :=
  match find_canonical_name cat θ pt.name with
  | none =>
    .failed (str (r"Unknown test: ") ++ (match pt.name with | some n => n | none => str (r"None")))
  | some normalized_name =>
    match cat.infos.lookup normalized_name with
    | none => .failed (str (r"No reference data for: ") ++ normalized_name)
    | some cfg =>
      let normalized_unit : Option Str :=
        match cfg.unit with | some u => some u | none => pt.unit
      match compute_status pt.value cfg.reference_range with
      | none => .error (str (r"division by zero"))
      | some (status, status_confidence) =>
        match cfg.reference_range with
        | none => .error (str (r"reference_range"))
        | some rr =>
          let name_confidence :=
            calculate_name_confidence cat (pt.name.getD []) normalized_name
          let overall := (name_confidence + pt.confidence + status_confidence) / 3
          .ok ⟨normalized_name, pt.value, normalized_unit, status, rr.low, rr.high,
            cfg.category.getD (str (r"other")), round2 overall, round2 pt.confidence⟩

/-- Failed-test record accumulated by `normalize_multiple_tests`. -/
structure FailedTest where
  raw_line : Str
  reason : Str
  confidence : ℚ
deriving DecidableEq

/-- Result of `TestNormalizer.normalize_multiple_tests`. -/
structure BatchNorm where
  status : Str
  tests : List NormalizedTest
  failed_tests : List FailedTest
  normalization_confidence : ℚ
  total_tests : Nat
  successful_tests : Nat
  failed_count : Nat
deriving DecidableEq

/-- Failure reason recorded for a non-ok outcome
(`result.get("reason", result.get("error", ...))`). -/
def outcomeReason : NormOutcome → Str
  | .ok _ => []
  | .failed reason => reason
  | .error msg => str (r"Exception: ") ++ msg

/-- Mirror of `TestNormalizer.normalize_multiple_tests`. -/
def normalize_multiple_tests (cat : Catalog) (θ : ℚ) (pts : List ParsedTest) : BatchNorm :=
  let results := pts.map (fun pt => (pt, normalize_test cat θ pt))
  let normalized := results.filterMap (fun x =>
    match x.2 with | .ok t => some t | _ => none)
  let failed := results.filterMap (fun x =>
    match x.2 with
    | .ok _ => none
    | o => some (⟨x.1.raw_line, outcomeReason o, 0⟩ : FailedTest))
  let total : ℚ := (normalized.map (fun t => t.normalization_confidence)).sum
  let avg : ℚ := if normalized ≠ [] then total / (normalized.length : ℚ) else 0
  ⟨(if normalized ≠ [] then str (r"ok") else str (r"failed")), normalized, failed,
    round2 avg, pts.length, normalized.length, failed.length⟩

/-- Whether an emitted canonical name is traceable to the combined raw input,
mirroring the per-test check of `SummaryGenerator.guardrail_check`:
(a) the lower-cased name is a substring of the combined input, or (b) some
alias mapping to the name is a substring, or (c) for multi-token names at
least two tokens of length above two occur, for single-token names the token
occurs. -/
def guardFound (aliasMap : List (Str × Str)) (combined : Str) (test_name : Str) : Bool :=
  let tl := lowerStr test_name
  substrOf tl combined
    || aliasMap.any (fun p => p.2 = test_name && substrOf p.1 combined)
    || (let kws := pySplitWs tl
        if 2 ≤ kws.length then
          decide (2 ≤ (kws.filter (fun w => substrOf w combined && decide (2 < w.length))).length)
        else
          match kws with
          | [w] => substrOf w combined
          | _ => false)

/-- Mirror of `SummaryGenerator.guardrail_check`, reduced to its observable
content: the ordered list of hallucinated test names (the returned status and
message strings are determined by whether this list is empty). -/
def guardrail_check (cat : Catalog) (input_tests_raw : List Str)
    (normalized_tests : List NormalizedTest) : List Str :=
  let combined := lowerStr (joinSp input_tests_raw)
  normalized_tests.filterMap (fun t =>
    if guardFound cat.alias_map combined t.name then none else some t.name)

/-- Final pipeline output of `MedicalReportPipeline._process_tests`; fields that
only some branches populate are options.  The generated summary prose is not
modelled. -/
structure FinalOutput where
  status : Str
  tests : List NormalizedTest
  failed_tests : Option (List FailedTest)
  normalization_confidence : Option ℚ
  extraction_confidence : Option ℚ
  guardrail_warnings : Option (List Str)
  total_tests_extracted : Option Nat
  total_tests_parsed : Option Nat
  total_tests_normalized : Option Nat
  step : Option Str
deriving DecidableEq

/-- Mirror of `MedicalReportPipeline._process_tests`, starting from the raw
candidate lines and extraction confidence supplied by the extraction stage. -/
def process_tests (cat : Catalog) (θ : ℚ) (tests_raw : List Str)
    (extraction_confidence : ℚ) : FinalOutput :=
  if tests_raw = [] then
    ⟨str (r"no_tests_found"), [], none, none, some extraction_confidence, none,
      none, none, none, some (str (r"extraction"))⟩
  else
    let parsed_tests := parse_multiple_lines tests_raw
    let valid_parsed_tests := parsed_tests.filter (fun t => t.value.isSome)
    if valid_parsed_tests = [] then
      ⟨str (r"parse_failed"), [], none, none, some extraction_confidence, none,
        none, none, none, some (str (r"parser"))⟩
    else
      let nr := normalize_multiple_tests cat θ valid_parsed_tests
      if nr.status ≠ str (r"ok") ∨ nr.tests = [] then
        ⟨str (r"normalization_failed"), nr.tests, some nr.failed_tests,
          some nr.normalization_confidence, none, none, none, none, none,
          some (str (r"normalizer"))⟩
      else
        let hall := guardrail_check cat tests_raw nr.tests
        let normalized_tests :=
          if hall ≠ [] then nr.tests.filter (fun t => ¬ hall.contains t.name)
          else nr.tests
        ⟨str (r"ok"), normalized_tests, some nr.failed_tests,
          some (round2 nr.normalization_confidence),
          some (round2 extraction_confidence), some hall,
          some tests_raw.length, some valid_parsed_tests.length,
          some normalized_tests.length, none⟩

/-- Concrete catalog used to instantiate witnesses and counterexamples.  The
catalog data file is external to the core (loaded reference data), so any
well-formed catalog value may be supplied; this one follows the Hemoglobin
and `hb` alias examples of the specification. -/
def testCatalog : Catalog :=
  ⟨[str (r"Hemoglobin")],
   [(str (r"Hemoglobin"),
     ⟨some (str (r"g/dL")), some ⟨some 0, some 3⟩, some (str (r"blood"))⟩)],
   [(str (r"hb"), str (r"Hemoglobin"))]⟩


/-- Rounding to the nearer integer never drops below the floor. -/
lemma floor_le_roundHalfEven (x : ℚ) : ⌊x⌋ ≤ roundHalfEven x := by
  unfold roundHalfEven
  split_ifs <;> omega

/-- Rounding to the nearer integer never exceeds the floor plus one. -/
lemma roundHalfEven_le_floor_add_one (x : ℚ) : roundHalfEven x ≤ ⌊x⌋ + 1 := by
  unfold roundHalfEven
  split_ifs <;> omega

/-- Half-even rounding is monotone. -/
lemma roundHalfEven_mono {x y : ℚ} (h : x ≤ y) : roundHalfEven x ≤ roundHalfEven y := by
  have hf : ⌊x⌋ ≤ ⌊y⌋ := Int.floor_mono h
  rcases lt_or_eq_of_le hf with hlt | heq
  · calc roundHalfEven x ≤ ⌊x⌋ + 1 := roundHalfEven_le_floor_add_one x
      _ ≤ ⌊y⌋ := by omega
      _ ≤ roundHalfEven y := floor_le_roundHalfEven y
  · unfold roundHalfEven
    rw [← heq]
    have hr : x - (⌊x⌋ : ℚ) ≤ y - (⌊x⌋ : ℚ) := sub_le_sub_right h _
    by_cases hb1 : y - (⌊x⌋ : ℚ) < 1/2
    · have ha1 : x - (⌊x⌋ : ℚ) < 1/2 := lt_of_le_of_lt hr hb1
      rw [if_pos ha1, if_pos hb1]
    · rw [if_neg hb1]
      by_cases hb2 : 1/2 < y - (⌊x⌋ : ℚ)
      · rw [if_pos hb2]; split_ifs <;> omega
      · rw [if_neg hb2]
        have hbe : y - (⌊x⌋ : ℚ) = 1/2 := le_antisymm (not_lt.mp hb2) (not_lt.mp hb1)
        by_cases ha1 : x - (⌊x⌋ : ℚ) < 1/2
        · rw [if_pos ha1]; split_ifs <;> omega
        · rw [if_neg ha1]
          have hax : x - (⌊x⌋ : ℚ) ≤ 1/2 := hbe ▸ hr
          rw [if_neg (not_lt.mpr hax)]

/-- Two-decimal rounding is monotone. -/
lemma round2_mono {x y : ℚ} (h : x ≤ y) : round2 x ≤ round2 y := by
  unfold round2
  have h1 : roundHalfEven (x * 100) ≤ roundHalfEven (y * 100) :=
    roundHalfEven_mono (by nlinarith)
  have hc : ((roundHalfEven (x * 100) : ℚ)) ≤ ((roundHalfEven (y * 100) : ℚ)) :=
    Int.cast_le.mpr h1
  linarith

/-- Evaluation of `compute_status` below the reference range. -/
lemma compute_status_low_eq (l h v : ℚ) (hlh : l < h) (hv : v < l) :
    compute_status (some v) (some ⟨some l, some h⟩) =
      some (some (str (r"low")),
        round2 (min 0.95 (0.7 + (l - v) / (h - l) * 0.25))) := by
  have hne : ¬ (h = l) := ne_of_gt hlh
  simp only [compute_status, hne, hv, if_true, if_false, ite_true, ite_false]
  rw [if_neg (by decide : ¬ (str (r"low") = str (r"normal")))]
  rw [abs_of_nonpos (by linarith : v - l ≤ 0), abs_of_nonpos (by linarith : v - h ≤ 0)]
  have hmin : -(v - l) ⊓ -(v - h) = l - v := by
    rw [min_eq_left (by linarith)]; ring
  rw [hmin]

/-- Evaluation of `compute_status` above the reference range. -/
lemma compute_status_high_eq (l h v : ℚ) (hlh : l < h) (hv : h < v) :
    compute_status (some v) (some ⟨some l, some h⟩) =
      some (some (str (r"high")),
        round2 (min 0.95 (0.7 + (v - h) / (h - l) * 0.25))) := by
  have hne : ¬ (h = l) := ne_of_gt hlh
  have hv1 : ¬ (v < l) := not_lt.mpr (by linarith)
  simp only [compute_status, hne, hv1, hv, if_true, if_false, ite_true, ite_false]
  rw [if_neg (by decide : ¬ (str (r"high") = str (r"normal")))]
  rw [abs_of_nonneg (by linarith : (0 : ℚ) ≤ v - l),
      abs_of_nonneg (by linarith : (0 : ℚ) ≤ v - h)]
  have hmin : (v - l) ⊓ (v - h) = v - h := min_eq_right (by linarith)
  rw [hmin]

/-- Evaluation of `compute_status` inside the reference range. -/
lemma compute_status_normal_eq (l h v : ℚ) (hlh : l < h) (h1 : l ≤ v) (h2 : v ≤ h) :
    compute_status (some v) (some ⟨some l, some h⟩) =
      some (some (str (r"normal")),
        round2 (0.7 + min ((v - l) / (h - l)) ((h - v) / (h - l)) * 0.3)) := by
  have hne : ¬ (h = l) := ne_of_gt hlh
  have hv1 : ¬ (v < l) := not_lt.mpr h1
  have hv2 : ¬ (h < v) := not_lt.mpr h2
  simp only [compute_status, hne, hv1, hv2, if_true, if_false, ite_true, ite_false]
  rw [abs_of_nonneg (by linarith : (0 : ℚ) ≤ v - l),
      abs_of_nonneg (by linarith : (0 : ℚ) ≤ h - v)]

/-- Evaluation of `compute_status` when a bound or the value is missing. -/
lemma compute_status_unknown_eq (v : Option ℚ) (rr : Option RefRange)
    (hmiss : v = none ∨ rr = none ∨
      (∃ r, rr = some r ∧ (r.low = none ∨ r.high = none))) :
    compute_status v rr = some (none, 0) := by
  rcases hmiss with hv | hrr | ⟨r, hrr, hb⟩
  · subst hv; rfl
  · subst hrr; cases v <;> rfl
  · subst hrr
    cases v with
    | none => rfl
    | some x =>
      rcases hb with hb | hb
      · simp only [compute_status, hb]
      · simp only [compute_status, hb]
        cases hl : r.low <;> rfl

/-- C2 (amended: the source rounds each confidence to two decimal places before
returning it).  With both bounds known and low < high, the status is low iff
value < low, high iff value > high, and normal otherwise, with confidence
`round2 (0.7 + 0.3·min(dist-to-low, dist-to-high)/(high−low))` for normal and
`round2 (min 0.95 (0.7 + 0.25·(distance beyond the nearer boundary)/(high−low)))`
for low/high; with the value or either bound missing the status is the unknown
outcome (`none`, not low/high/normal) with confidence 0. -/
theorem C2_status_confidence (l h v : ℚ) (hlh : l < h) :
    (v < l → compute_status (some v) (some ⟨some l, some h⟩) =
      some (some (str (r"low")), round2 (min 0.95 (0.7 + 0.25 * ((l - v) / (h - l)))))) ∧
    (h < v → compute_status (some v) (some ⟨some l, some h⟩) =
      some (some (str (r"high")), round2 (min 0.95 (0.7 + 0.25 * ((v - h) / (h - l)))))) ∧
    (l ≤ v → v ≤ h → compute_status (some v) (some ⟨some l, some h⟩) =
      some (some (str (r"normal")), round2 (0.7 + 0.3 * (min (v - l) (h - v) / (h - l))))) ∧
    (∀ (w : Option ℚ) (rr : Option RefRange),
      w = none ∨ rr = none ∨ (∃ r, rr = some r ∧ (r.low = none ∨ r.high = none)) →
      compute_status w rr = some (none, 0)) := by
  refine ⟨fun hv => ?_, fun hv => ?_, fun h1 h2 => ?_, fun w rr hm => compute_status_unknown_eq w rr hm⟩
  · rw [compute_status_low_eq l h v hlh hv, mul_comm ((l - v) / (h - l)) 0.25]
  · rw [compute_status_high_eq l h v hlh hv, mul_comm ((v - h) / (h - l)) 0.25]
  · rw [compute_status_normal_eq l h v hlh h1 h2,
      min_div_div_right (by linarith : (0 : ℚ) ≤ h - l),
      mul_comm (((v - l) ⊓ (h - v)) / (h - l)) 0.3]

/-- Witness for C2 at value 4 against range 10–20. -/
theorem C2_witness :
    compute_status (some 4) (some ⟨some 10, some 20⟩) =
      some (some (str (r"low")), round2 (min 0.95 (0.7 + 0.25 * ((10 - 4) / (20 - 10))))) :=
  (C2_status_confidence 10 20 4 (by norm_num)).1 (by norm_num)

/-- Counterexample to C2 as stated: at value 1 against range 0–7 the emitted
confidence is the rounded 0.74, not the exact 0.7 + 0.3·(1/7) of the claim. -/
theorem C2_counterexample :
    compute_status (some 1) (some ⟨some 0, some 7⟩) = some (some (str (r"normal")), 0.74) ∧
    (0.74 : ℚ) ≠ 0.7 + 0.3 * (min (1 - 0) (7 - 1) / (7 - 0)) := by
  constructor
  · decide
  · rw [min_eq_left (by norm_num : (1 : ℚ) - 0 ≤ 7 - 1)]
    norm_num

/-- C9 (amended: the emitted confidence is rounded to two decimal places, so it
decreases weakly, while the unrounded confidence decreases strictly).  For
values strictly inside the range, on the same side of the midpoint, with `v`
nearer to the boundary than `u`, the unrounded normal confidence of `v` is
strictly below that of `u` and the emitted (rounded) confidence of `v` is at
most that of `u`. -/
theorem C9_confidence_monotone (l h u v : ℚ) (hlh : l < h)
    (hu1 : l < u) (hu2 : u < h) (hv1 : l < v) (hv2 : v < h)
    (hside : (2*u ≤ l + h ∧ 2*v ≤ l + h ∧ v - l < u - l) ∨
             (l + h ≤ 2*u ∧ l + h ≤ 2*v ∧ h - v < h - u)) :
    compute_status (some v) (some ⟨some l, some h⟩) =
      some (some (str (r"normal")),
        round2 (0.7 + min ((v - l) / (h - l)) ((h - v) / (h - l)) * 0.3)) ∧
    compute_status (some u) (some ⟨some l, some h⟩) =
      some (some (str (r"normal")),
        round2 (0.7 + min ((u - l) / (h - l)) ((h - u) / (h - l)) * 0.3)) ∧
    (0.7 + min ((v - l) / (h - l)) ((h - v) / (h - l)) * 0.3 <
      0.7 + min ((u - l) / (h - l)) ((h - u) / (h - l)) * 0.3) ∧
    round2 (0.7 + min ((v - l) / (h - l)) ((h - v) / (h - l)) * 0.3) ≤
      round2 (0.7 + min ((u - l) / (h - l)) ((h - u) / (h - l)) * 0.3) := by
  have hpos : (0 : ℚ) < h - l := by linarith
  have hstrict : min ((v - l) / (h - l)) ((h - v) / (h - l)) <
      min ((u - l) / (h - l)) ((h - u) / (h - l)) := by
    rcases hside with ⟨hus, hvs, hnear⟩ | ⟨hus, hvs, hnear⟩
    · rw [min_eq_left ((div_le_div_iff_of_pos_right hpos).mpr (by linarith)),
          min_eq_left ((div_le_div_iff_of_pos_right hpos).mpr (by linarith))]
      exact (div_lt_div_iff_of_pos_right hpos).mpr hnear
    · rw [min_eq_right ((div_le_div_iff_of_pos_right hpos).mpr (by linarith)),
          min_eq_right ((div_le_div_iff_of_pos_right hpos).mpr (by linarith))]
      exact (div_lt_div_iff_of_pos_right hpos).mpr hnear
  have hconf : 0.7 + min ((v - l) / (h - l)) ((h - v) / (h - l)) * 0.3 <
      0.7 + min ((u - l) / (h - l)) ((h - u) / (h - l)) * 0.3 := by nlinarith
  exact ⟨compute_status_normal_eq l h v hlh (le_of_lt hv1) (le_of_lt hv2),
    compute_status_normal_eq l h u hlh (le_of_lt hu1) (le_of_lt hu2),
    hconf, round2_mono (le_of_lt hconf)⟩

/-- Witness for C9 with range 0–10 and values 3 and 2 below the midpoint. -/
theorem C9_witness :
    round2 (0.7 + min (((2 : ℚ) - 0) / (10 - 0)) ((10 - 2) / (10 - 0)) * 0.3) ≤
      round2 (0.7 + min (((3 : ℚ) - 0) / (10 - 0)) ((10 - 3) / (10 - 0)) * 0.3) :=
  (C9_confidence_monotone 0 10 3 2 (by norm_num) (by norm_num) (by norm_num) (by norm_num)
    (by norm_num) (Or.inl ⟨by norm_num, by norm_num, by norm_num⟩)).2.2.2

/-- Evaluation of two-decimal rounding when the scaled value sits in the lower
half-open interval around the integer `n`. -/
lemma round2_eq_down (x : ℚ) (n : ℤ) (h1 : (n : ℚ) ≤ x * 100) (h2 : x * 100 < n + 1/2) :
    round2 x = (n : ℚ) / 100 := by
  have hf : ⌊x * 100⌋ = n := Int.floor_eq_iff.mpr ⟨h1, by linarith⟩
  unfold round2 roundHalfEven
  rw [hf, if_pos (by linarith : x * 100 - (n : ℚ) < 1/2)]

/-- Evaluation of two-decimal rounding when the scaled value sits in the upper
half-open interval below the integer `n`. -/
lemma round2_eq_up (x : ℚ) (n : ℤ) (h1 : (n : ℚ) - 1/2 < x * 100) (h2 : x * 100 < n) :
    round2 x = (n : ℚ) / 100 := by
  have hf : ⌊x * 100⌋ = n - 1 := by
    apply Int.floor_eq_iff.mpr
    constructor
    · push_cast; linarith
    · push_cast; linarith
  unfold round2 roundHalfEven
  rw [hf, if_neg (by push_cast; linarith : ¬ (x * 100 - ((n - 1 : ℤ) : ℚ) < 1/2)),
    if_pos (by push_cast; linarith : (1 : ℚ)/2 < x * 100 - ((n - 1 : ℤ) : ℚ))]
  push_cast
  ring

/-- Counterexample to C9 as stated: with range 0–1000, the values 400 and 399
are both inside and below the midpoint and 399 is nearer to the boundary, yet
the two emitted confidences are equal (both round to 0.82), so the emitted
confidence does not strictly decrease. -/
theorem C9_counterexample :
    compute_status (some 399) (some ⟨some 0, some 1000⟩) =
      compute_status (some 400) (some ⟨some 0, some 1000⟩) ∧
    compute_status (some 400) (some ⟨some 0, some 1000⟩) =
      some (some (str (r"normal")), 0.82) := by
  have e399 := compute_status_normal_eq 0 1000 399 (by norm_num) (by norm_num) (by norm_num)
  have e400 := compute_status_normal_eq 0 1000 400 (by norm_num) (by norm_num) (by norm_num)
  rw [min_eq_left (by norm_num)] at e399
  rw [min_eq_left (by norm_num)] at e400
  have r399 : round2 (0.7 + (399 - 0) / (1000 - 0) * 0.3) = ((82 : ℤ) : ℚ) / 100 :=
    round2_eq_up _ 82 (by norm_num) (by norm_num)
  have r400 : round2 (0.7 + (400 - 0) / (1000 - 0) * 0.3) = ((82 : ℤ) : ℚ) / 100 :=
    round2_eq_down _ 82 (by norm_num) (by norm_num)
  rw [e399, e400, r399, r400]
  exact ⟨rfl, by norm_num⟩

/-- Parsed candidate fixture: the line `Hemoglobin 1 g/dL` as the parser emits it. -/
def ptHemo : ParsedTest :=
  ⟨some (str (r"Hemoglobin")), some 1, some (str (r"g/dL")), none,
   str (r"Hemoglobin 1 g/dL"), 0.95⟩

/-- Normalized fixture produced from `ptHemo` against `testCatalog`. -/
def ntHemo : NormalizedTest :=
  ⟨str (r"Hemoglobin"), some 1, some (str (r"g/dL")), some (str (r"normal")),
   some 0, some 3, str (r"blood"), 0.92, 0.95⟩

/-- C10 (confirmed): for every successfully normalized test, when the resolved
catalog entry defines a unit the emitted unit is the catalog unit, and the
parsed unit is emitted only when the catalog entry lacks a unit. -/
theorem C10_catalog_unit (cat : Catalog) (θ : ℚ) (pt : ParsedTest) (nt : NormalizedTest)
    (hok : normalize_test cat θ pt = NormOutcome.ok nt) :
    ∃ cfg, cat.infos.lookup nt.name = some cfg ∧
      (∀ cu, cfg.unit = some cu → nt.unit = some cu) ∧
      (cfg.unit = none → nt.unit = pt.unit) := by
  unfold normalize_test at hok
  cases hfc : find_canonical_name cat θ pt.name with
  | none => simp only [hfc] at hok; exact NormOutcome.noConfusion hok
  | some nm =>
    simp only [hfc] at hok
    cases hcfg : cat.infos.lookup nm with
    | none => simp only [hcfg] at hok; exact NormOutcome.noConfusion hok
    | some cfg =>
      simp only [hcfg] at hok
      cases hcs : compute_status pt.value cfg.reference_range with
      | none => simp only [hcs] at hok; exact NormOutcome.noConfusion hok
      | some pr =>
        simp only [hcs] at hok
        obtain ⟨st, sc⟩ := pr
        cases hrr : cfg.reference_range with
        | none => simp only [hrr] at hok; exact NormOutcome.noConfusion hok
        | some rr =>
          simp only [hrr, NormOutcome.ok.injEq] at hok
          refine ⟨cfg, ?_, ?_, ?_⟩
          · rw [← hok]; exact hcfg
          · intro cu hcu
            rw [← hok]
            simp [hcu]
          · intro hnone
            rw [← hok]
            simp [hnone]

/-- Witness for C10 at the Hemoglobin fixture. -/
theorem C10_witness :
    ∃ cfg, testCatalog.infos.lookup ntHemo.name = some cfg ∧
      (∀ cu, cfg.unit = some cu → ntHemo.unit = some cu) ∧
      (cfg.unit = none → ntHemo.unit = ptHemo.unit) :=
  C10_catalog_unit testCatalog 80 ptHemo ntHemo (by decide)

/-- Claim-side description of the name-resolution confidence, matching the
source function on nonempty names. -/
lemma calculate_name_confidence_spec (cat : Catalog) (o n : Str) (ho : o ≠ []) (hn : n ≠ []) :
    calculate_name_confidence cat o n =
      (if lowerStr o = lowerStr n then 1
       else if cat.alias_map.lookup (lowerStr o) = some n then (0.95 : ℚ)
       else min (tokenSetScore (lowerStr o) (lowerStr n) / 100) 1) := by
  unfold calculate_name_confidence
  rw [if_neg (by simp [ho, hn])]
  by_cases he : lowerStr o = lowerStr n
  · rw [if_pos he, if_pos he]
  · rw [if_neg he, if_neg he]
    cases hl : cat.alias_map.lookup (lowerStr o) with
    | none => simp [hl]
    | some c =>
      by_cases hc : c = n
      · subst hc; simp [hl]
      · simp [hl, hc]

/-- C7 (amended: the emitted per-test confidence is rounded to two decimal
places).  For every successfully normalized test, the emitted
normalizationConfidence is the rounded unweighted mean of the name-resolution
confidence, the parse confidence and the status confidence, and the
name-resolution confidence is 1.0 on a case-insensitive exact canonical match,
0.95 on an exact alias match, and otherwise the token-set fuzzy score divided
by 100 capped at 1.0. -/
theorem C7_overall_confidence (cat : Catalog) (θ : ℚ) (pt : ParsedTest) (nt : NormalizedTest)
    (hok : normalize_test cat θ pt = NormOutcome.ok nt) :
    ∃ cfg stconf,
      cat.infos.lookup nt.name = some cfg ∧
      compute_status pt.value cfg.reference_range = some (nt.test_status, stconf) ∧
      nt.normalization_confidence =
        round2 ((calculate_name_confidence cat (pt.name.getD []) nt.name
          + pt.confidence + stconf) / 3) ∧
      (pt.name.getD [] ≠ [] → nt.name ≠ [] →
        calculate_name_confidence cat (pt.name.getD []) nt.name =
          (if lowerStr (pt.name.getD []) = lowerStr nt.name then 1
           else if cat.alias_map.lookup (lowerStr (pt.name.getD [])) = some nt.name then (0.95 : ℚ)
           else min (tokenSetScore (lowerStr (pt.name.getD [])) (lowerStr nt.name) / 100) 1)) := by
  unfold normalize_test at hok
  cases hfc : find_canonical_name cat θ pt.name with
  | none => simp only [hfc] at hok; exact NormOutcome.noConfusion hok
  | some nm =>
    simp only [hfc] at hok
    cases hcfg : cat.infos.lookup nm with
    | none => simp only [hcfg] at hok; exact NormOutcome.noConfusion hok
    | some cfg =>
      simp only [hcfg] at hok
      cases hcs : compute_status pt.value cfg.reference_range with
      | none => simp only [hcs] at hok; exact NormOutcome.noConfusion hok
      | some pr =>
        simp only [hcs] at hok
        obtain ⟨st, sc⟩ := pr
        cases hrr : cfg.reference_range with
        | none => simp only [hrr] at hok; exact NormOutcome.noConfusion hok
        | some rr =>
          simp only [hrr, NormOutcome.ok.injEq] at hok
          refine ⟨cfg, sc, ?_, ?_, ?_, ?_⟩
          · rw [← hok]; exact hcfg
          · rw [← hok]; exact hcs
          · rw [← hok]
          · intro ho hn
            rw [← hok] at hn ⊢
            exact calculate_name_confidence_spec cat (pt.name.getD []) nm ho hn

/-- Witness for C7 at the Hemoglobin fixture. -/
theorem C7_witness :
    ∃ cfg stconf,
      testCatalog.infos.lookup ntHemo.name = some cfg ∧
      compute_status ptHemo.value cfg.reference_range = some (ntHemo.test_status, stconf) ∧
      ntHemo.normalization_confidence =
        round2 ((calculate_name_confidence testCatalog (ptHemo.name.getD []) ntHemo.name
          + ptHemo.confidence + stconf) / 3) ∧
      (ptHemo.name.getD [] ≠ [] → ntHemo.name ≠ [] →
        calculate_name_confidence testCatalog (ptHemo.name.getD []) ntHemo.name =
          (if lowerStr (ptHemo.name.getD []) = lowerStr ntHemo.name then 1
           else if testCatalog.alias_map.lookup (lowerStr (ptHemo.name.getD [])) = some ntHemo.name
             then (0.95 : ℚ)
           else min (tokenSetScore (lowerStr (ptHemo.name.getD [])) (lowerStr ntHemo.name) / 100) 1)) :=
  C7_overall_confidence testCatalog 80 ptHemo ntHemo (by decide)

/-- Counterexample to C7 as stated: for the Hemoglobin fixture the three stage
confidences are 1, 0.95 and 0.8, whose mean is 11/12, but the emitted
normalizationConfidence is the rounded 0.92. -/
theorem C7_counterexample :
    calculate_name_confidence testCatalog (str (r"Hemoglobin")) (str (r"Hemoglobin")) = 1 ∧
    compute_status ptHemo.value (some ⟨some 0, some 3⟩) = some (some (str (r"normal")), 0.8) ∧
    normalize_test testCatalog 80 ptHemo = NormOutcome.ok ntHemo ∧
    ntHemo.normalization_confidence ≠
      (1 + ptHemo.confidence + 0.8) / 3 := by
  refine ⟨by decide, by decide, by decide, ?_⟩
  show (0.92 : ℚ) ≠ (1 + 0.95 + 0.8) / 3
  norm_num

/-- C6 (confirmed): name resolution tries, in order, (a) case-insensitive exact
match against canonical names, (b) exact alias-map lookup of the cleaned
name, (c) best token-set fuzzy match against canonical names accepted iff its
score reaches the threshold, (d) best token-set fuzzy match against alias
keys accepted iff its score reaches the threshold, mapped through the alias
map; the first stage that succeeds determines the result and if all four fail
the name is unresolved. -/
theorem C6_resolution_stages (cat : Catalog) (θ : ℚ) (nm : Str) (hne : nm ≠ []) :
    (∀ c, cat.canonical_names.find? (fun cn => lowerStr cn = lowerStr (pyStrip nm)) = some c →
      find_canonical_name cat θ (some nm) = some c) ∧
    (cat.canonical_names.find? (fun cn => lowerStr cn = lowerStr (pyStrip nm)) = none →
      (∀ c, cat.alias_map.lookup (lowerStr (pyStrip nm)) = some c →
        find_canonical_name cat θ (some nm) = some c) ∧
      (cat.alias_map.lookup (lowerStr (pyStrip nm)) = none →
        (∀ best score,
          extractOne (lowerStr (pyStrip nm)) cat.canonical_names = some (best, score) →
          θ ≤ score → find_canonical_name cat θ (some nm) = some best) ∧
        ((∀ best score,
            extractOne (lowerStr (pyStrip nm)) cat.canonical_names = some (best, score) →
            score < θ) →
          (∀ bk score c,
            extractOne (lowerStr (pyStrip nm)) (cat.alias_map.map Prod.fst) = some (bk, score) →
            θ ≤ score → cat.alias_map.lookup bk = some c →
            find_canonical_name cat θ (some nm) = some c) ∧
          ((∀ bk score,
              extractOne (lowerStr (pyStrip nm)) (cat.alias_map.map Prod.fst) = some (bk, score) →
              score < θ) →
            find_canonical_name cat θ (some nm) = none)))) ∧
    find_canonical_name cat θ none = none := by
  refine ⟨?_, ?_, rfl⟩
  · intro c hc
    unfold find_canonical_name
    simp only [hne, if_neg, ite_false, hc]
  · intro ha
    refine ⟨?_, ?_⟩
    · intro c hc
      unfold find_canonical_name
      simp only [hne, if_neg, ite_false, ha, hc]
    · intro hb
      refine ⟨?_, ?_⟩
      · intro best score hext hθ
        unfold find_canonical_name
        simp only [hne, if_neg, ite_false, ha, hb, hext, not_lt.mpr hθ, ite_true, if_pos]
        rw [if_pos hθ]
      · intro hcfail
        refine ⟨?_, ?_⟩
        · intro bk score c hext hθ hlk
          unfold find_canonical_name fuzzyAliasStage
          cases hce : extractOne (lowerStr (pyStrip nm)) cat.canonical_names with
          | none => simp only [hne, if_neg, ite_false, ha, hb, hce, hext, if_pos hθ, hlk]
          | some pr =>
            obtain ⟨b2, s2⟩ := pr
            have hlt : ¬ (θ ≤ s2) := not_le.mpr (hcfail b2 s2 hce)
            simp only [hne, if_neg, ite_false, ha, hb, hce, if_neg hlt, hext, if_pos hθ, hlk]
        · intro hdfail
          unfold find_canonical_name fuzzyAliasStage
          have hstep : (match extractOne (lowerStr (pyStrip nm)) (cat.alias_map.map Prod.fst) with
              | some (bestKey, score) =>
                if θ ≤ score then cat.alias_map.lookup bestKey else none
              | none => none) = (none : Option Str) := by
            cases hde : extractOne (lowerStr (pyStrip nm)) (cat.alias_map.map Prod.fst) with
            | none => rfl
            | some pr =>
              obtain ⟨bk, s⟩ := pr
              have : ¬ (θ ≤ s) := not_le.mpr (hdfail bk s hde)
              simp [this]
          cases hce : extractOne (lowerStr (pyStrip nm)) cat.canonical_names with
          | none =>
            simp only [hne, if_neg, ite_false, ha, hb, hce]
            exact hstep
          | some pr =>
            obtain ⟨b2, s2⟩ := pr
            have hlt : ¬ (θ ≤ s2) := not_le.mpr (hcfail b2 s2 hce)
            simp only [hne, if_neg, ite_false, ha, hb, hce, if_neg hlt]
            exact hstep

/-- Witness for C6: the alias stage resolves `HB` to `Hemoglobin`. -/
theorem C6_witness :
    find_canonical_name testCatalog 80 (some (str (r"HB"))) = some (str (r"Hemoglobin")) :=
  ((C6_resolution_stages testCatalog 80 (str (r"HB")) (by decide)).2.1
    (by decide)).1 (str (r"Hemoglobin")) (by decide)

/-- The empty unit never contains a recognized unit token. -/
lemma unitHit_nil : unitHit ([] : Str) = false := by decide

/-- The parse confidence of the source equals the additive formula of the
specification, capped at 1. -/
lemma calculate_confidence_formula (nm : Str) (v : ℚ) (u : Str) (st : Option Str) :
    calculate_confidence nm (some v) u st =
      min (0.5 + (if knownNameHit nm then (0.2 : ℚ) else 0)
        + (if unitHit u then (0.15 : ℚ) else 0)
        + (if 0 < v ∧ v < 100000 then (0.1 : ℚ) else 0)
        + (if statusTruthy st then (0.05 : ℚ) else 0)) 1 := by
  unfold calculate_confidence
  have hcond : (u ≠ [] ∧ unitHit u = true) ↔ (unitHit u = true) :=
    ⟨fun h => h.2, fun h => ⟨fun he => by rw [he] at h; exact absurd h (by decide), h⟩⟩
  simp only [hcond, Bool.and_eq_true, decide_eq_true_eq]

/-- The parse confidence always lies in the interval `[0.5, 1]`. -/
lemma calculate_confidence_bounds (nm : Str) (v : Option ℚ) (u : Str) (st : Option Str) :
    1/2 ≤ calculate_confidence nm v u st ∧ calculate_confidence nm v u st ≤ 1 := by
  unfold calculate_confidence
  refine ⟨le_min ?_ (by norm_num), min_le_right _ _⟩
  split_ifs <;> norm_num

/-- Every successful Standard-grammar result carries the confidence computed by
`calculate_confidence` on its own fields. -/
lemma try_parse_standard_format_conf (l : Str) (pt : ParsedTest)
    (h : try_parse_standard_format l = some pt) :
    ∃ nm v u st, pt = ⟨some nm, some v, some u, st, l, calculate_confidence nm (some v) u st⟩ := by
  unfold try_parse_standard_format at h
  cases hm : fullMatchCaps stdRE (cleanCommas l) with
  | none => simp only [hm] at h; exact Option.noConfusion h
  | some caps =>
    simp only [hm] at h
    cases hf : pyFloat ((pyStrip ((capStr caps 2).getD [])).filter (fun c => c ≠ ',')) with
    | none => simp only [hf] at h; exact Option.noConfusion h
    | some v =>
      simp only [hf, Option.some.injEq] at h
      exact ⟨_, v, _, _, h.symm⟩

/-- Every successful WithReference-grammar result carries the confidence
computed by `calculate_confidence` on its own fields. -/
lemma try_parse_with_reference_conf (l : Str) (pt : ParsedTest)
    (h : try_parse_with_reference l = some pt) :
    ∃ nm v u st, pt = ⟨some nm, some v, some u, st, l, calculate_confidence nm (some v) u st⟩ := by
  unfold try_parse_with_reference at h
  cases hm : fullMatchCaps refRE (cleanCommas l) with
  | none => simp only [hm] at h; exact Option.noConfusion h
  | some caps =>
    simp only [hm] at h
    cases hf : pyFloat ((pyStrip ((capStr caps 2).getD [])).filter (fun c => c ≠ ',')) with
    | none => simp only [hf] at h; exact Option.noConfusion h
    | some v =>
      simp only [hf, Option.some.injEq] at h
      exact ⟨_, v, _, _, h.symm⟩

/-- Every successful Colon-grammar result carries the confidence computed by
`calculate_confidence` on its own fields. -/
lemma try_parse_colon_format_conf (l : Str) (pt : ParsedTest)
    (h : try_parse_colon_format l = some pt) :
    ∃ nm v u st, pt = ⟨some nm, some v, some u, st, l, calculate_confidence nm (some v) u st⟩ := by
  unfold try_parse_colon_format at h
  cases hm : fullMatchCaps colonRE l with
  | none => simp only [hm] at h; exact Option.noConfusion h
  | some caps =>
    simp only [hm] at h
    cases hf : pyFloat ((pyStrip ((capStr caps 2).getD [])).filter (fun c => c ≠ ',')) with
    | none => simp only [hf] at h; exact Option.noConfusion h
    | some v =>
      simp only [hf, Option.some.injEq] at h
      exact ⟨_, v, _, _, h.symm⟩

/-- Every candidate with a numeric value produced by `parse_line` carries the
confidence computed by `calculate_confidence` on its own fields. -/
lemma parse_line_conf (line : Str) (pt : ParsedTest) (hp : parse_line line = pt)
    (hv : pt.value.isSome) :
    ∃ nm v u st,
      pt = ⟨some nm, some v, some u, st, pyStrip line,
        calculate_confidence nm (some v) u st⟩ := by
  unfold parse_line at hp
  by_cases hlik : is_likely_test_line (pyStrip line)
  · rw [if_neg (not_not_intro hlik)] at hp
    by_cases h1 : yieldsValue (try_parse_standard_format (pyStrip line))
    · rw [if_pos h1] at hp
      cases he : try_parse_standard_format (pyStrip line) with
      | none => rw [he] at h1; exact absurd h1 (by simp [yieldsValue])
      | some r =>
        rw [he] at hp
        simp only [Option.getD_some] at hp
        obtain ⟨nm, v, u, st, hr⟩ := try_parse_standard_format_conf _ r he
        exact ⟨nm, v, u, st, by rw [← hp]; exact hr⟩
    · rw [if_neg h1] at hp
      by_cases h2 : yieldsValue (try_parse_with_reference (pyStrip line))
      · rw [if_pos h2] at hp
        cases he : try_parse_with_reference (pyStrip line) with
        | none => rw [he] at h2; exact absurd h2 (by simp [yieldsValue])
        | some r =>
          rw [he] at hp
          simp only [Option.getD_some] at hp
          obtain ⟨nm, v, u, st, hr⟩ := try_parse_with_reference_conf _ r he
          exact ⟨nm, v, u, st, by rw [← hp]; exact hr⟩
      · rw [if_neg h2] at hp
        by_cases h3 : yieldsValue (try_parse_colon_format (pyStrip line))
        · rw [if_pos h3] at hp
          cases he : try_parse_colon_format (pyStrip line) with
          | none => rw [he] at h3; exact absurd h3 (by simp [yieldsValue])
          | some r =>
            rw [he] at hp
            simp only [Option.getD_some] at hp
            obtain ⟨nm, v, u, st, hr⟩ := try_parse_colon_format_conf _ r he
            exact ⟨nm, v, u, st, by rw [← hp]; exact hr⟩
        · rw [if_neg h3] at hp
          rw [← hp] at hv
          exact absurd hv (by simp [nullParsed])
  · rw [if_pos hlik] at hp
    rw [← hp] at hv
    exact absurd hv (by simp [nullParsed])

/-- C8 (confirmed): for every line successfully parsed by any grammar, the
parse confidence equals 0.5, plus 0.2 for a known-test name, plus 0.15 for a
recognized unit token, plus 0.1 for a value in (0, 100000), plus 0.05 for a
captured status word, capped at 1, and hence always lies in `[0.5, 1]`. -/
theorem C8_parse_confidence (line nm u raw : Str) (v : ℚ) (st : Option Str) (conf : ℚ)
    (hp : parse_line line = ⟨some nm, some v, some u, st, raw, conf⟩) :
    conf = min (0.5 + (if knownNameHit nm then (0.2 : ℚ) else 0)
        + (if unitHit u then (0.15 : ℚ) else 0)
        + (if 0 < v ∧ v < 100000 then (0.1 : ℚ) else 0)
        + (if statusTruthy st then (0.05 : ℚ) else 0)) 1 ∧
    1/2 ≤ conf ∧ conf ≤ 1 := by
  obtain ⟨nm2, v2, u2, st2, hr⟩ := parse_line_conf line _ hp (by simp)
  simp only [ParsedTest.mk.injEq, Option.some.injEq] at hr
  obtain ⟨h1, h2, h3, h4, _, h6⟩ := hr
  subst h1; subst h2; subst h3; subst h4; subst h6
  exact ⟨calculate_confidence_formula nm v u st,
    calculate_confidence_bounds nm (some v) u st⟩

/-- Witness for C8 at the specification example line. -/
theorem C8_witness :
    (1 : ℚ) = min (0.5 + (if knownNameHit (str (r"Hemoglobin")) then (0.2 : ℚ) else 0)
        + (if unitHit (str (r"g/dL")) then (0.15 : ℚ) else 0)
        + (if 0 < (10.2 : ℚ) ∧ (10.2 : ℚ) < 100000 then (0.1 : ℚ) else 0)
        + (if statusTruthy (some (str (r"low"))) then (0.05 : ℚ) else 0)) 1 ∧
    (1 : ℚ)/2 ≤ 1 ∧ (1 : ℚ) ≤ 1 :=
  C8_parse_confidence (str (r"Hemoglobin 10.2 g/dL (Low)"))
    (str (r"Hemoglobin")) (str (r"g/dL")) (str (r"Hemoglobin 10.2 g/dL (Low)"))
    10.2 (some (str (r"low"))) 1 (by decide)

/-- C4 (confirmed): `parse_line` strips the line, rejects it through the
classifier with a null candidate, otherwise applies the grammars in the fixed
order Standard, WithReference, Colon and returns the result of the first
grammar that yields a numeric value, falling back to the null candidate with
all fields absent and confidence 0; in particular the specification example
line parses to name Hemoglobin, value 10.2, unit g/dL, status low. -/
theorem C4_parse_dispatch (line : Str) :
    (¬ is_likely_test_line (pyStrip line) → parse_line line = nullParsed (pyStrip line)) ∧
    (is_likely_test_line (pyStrip line) →
      (∀ r, try_parse_standard_format (pyStrip line) = some r → r.value.isSome →
        parse_line line = r) ∧
      (¬ yieldsValue (try_parse_standard_format (pyStrip line)) →
        ∀ r, try_parse_with_reference (pyStrip line) = some r → r.value.isSome →
          parse_line line = r) ∧
      (¬ yieldsValue (try_parse_standard_format (pyStrip line)) →
        ¬ yieldsValue (try_parse_with_reference (pyStrip line)) →
        ∀ r, try_parse_colon_format (pyStrip line) = some r → r.value.isSome →
          parse_line line = r) ∧
      (¬ yieldsValue (try_parse_standard_format (pyStrip line)) →
        ¬ yieldsValue (try_parse_with_reference (pyStrip line)) →
        ¬ yieldsValue (try_parse_colon_format (pyStrip line)) →
        parse_line line = nullParsed (pyStrip line))) ∧
    parse_line (str (r"Hemoglobin 10.2 g/dL (Low)")) =
      ⟨some (str (r"Hemoglobin")), some 10.2, some (str (r"g/dL")), some (str (r"low")),
       str (r"Hemoglobin 10.2 g/dL (Low)"), 1⟩ := by
  refine ⟨?_, ?_, by decide⟩
  · intro hlik
    unfold parse_line
    rw [if_pos hlik]
  · intro hlik
    refine ⟨?_, ?_, ?_, ?_⟩
    · intro r hstd hval
      unfold parse_line
      rw [if_neg (not_not_intro hlik),
        if_pos (by rw [hstd]; exact hval : yieldsValue (try_parse_standard_format (pyStrip line))),
        hstd, Option.getD_some]
    · intro h1 r href hval
      unfold parse_line
      rw [if_neg (not_not_intro hlik), if_neg h1,
        if_pos (by rw [href]; exact hval : yieldsValue (try_parse_with_reference (pyStrip line))),
        href, Option.getD_some]
    · intro h1 h2 r hcol hval
      unfold parse_line
      rw [if_neg (not_not_intro hlik), if_neg h1, if_neg h2,
        if_pos (by rw [hcol]; exact hval : yieldsValue (try_parse_colon_format (pyStrip line))),
        hcol, Option.getD_some]
    · intro h1 h2 h3
      unfold parse_line
      rw [if_neg (not_not_intro hlik), if_neg h1, if_neg h2, if_neg h3]

/-- Witness for C4: the Standard grammar yields a value for the example line
and `parse_line` returns exactly that result. -/
theorem C4_witness :
    parse_line (str (r"Hemoglobin 10.2 g/dL (Low)")) =
      ⟨some (str (r"Hemoglobin")), some 10.2, some (str (r"g/dL")), some (str (r"low")),
       str (r"Hemoglobin 10.2 g/dL (Low)"), 1⟩ :=
  ((C4_parse_dispatch (str (r"Hemoglobin 10.2 g/dL (Low)"))).2.1 (by decide)).1
    ⟨some (str (r"Hemoglobin")), some 10.2, some (str (r"g/dL")), some (str (r"low")),
     str (r"Hemoglobin 10.2 g/dL (Low)"), 1⟩ (by decide) (by decide)

/-- The batch normalization status is `ok` exactly when some test normalized. -/
lemma normalize_multiple_status (cat : Catalog) (θ : ℚ) (pts : List ParsedTest) :
    ((normalize_multiple_tests cat θ pts).status = str (r"ok") ↔
      (normalize_multiple_tests cat θ pts).tests ≠ []) := by
  unfold normalize_multiple_tests
  simp only []
  by_cases h : (pts.map (fun pt => (pt, normalize_test cat θ pt))).filterMap
      (fun x => match x.2 with | NormOutcome.ok t => some t | _ => none) ≠ []
  · rw [if_pos h]
    exact ⟨fun _ => h, fun _ => rfl⟩
  · rw [if_neg h]
    constructor
    · intro he; exact absurd he (by decide)
    · intro hne; exact absurd hne h

/-- A normalized test failing every guardrail check has its name in the
hallucinated list. -/
lemma mem_guardrail_of_notFound (cat : Catalog) (raw : List Str) (nts : List NormalizedTest)
    (t : NormalizedTest) (ht : t ∈ nts)
    (hf : guardFound cat.alias_map (lowerStr (joinSp raw)) t.name = false) :
    t.name ∈ guardrail_check cat raw nts := by
  unfold guardrail_check
  refine List.mem_filterMap.mpr ⟨t, ht, ?_⟩
  simp [hf]

/-- C1 (confirmed): in the emitted result every test name passes at least one
guardrail check against the lower-cased combined raw input, and every
normalized test failing all checks is removed from the emitted tests and its
name reported in the guardrail warnings; outputs of non-ok terminal states
carry no tests. -/
theorem C1_guardrail (cat : Catalog) (θ : ℚ) (tests_raw : List Str) (ec : ℚ) :
    ((process_tests cat θ tests_raw ec).status = str (r"ok") →
      (∀ t ∈ (process_tests cat θ tests_raw ec).tests,
        guardFound cat.alias_map (lowerStr (joinSp tests_raw)) t.name = true) ∧
      (∀ t ∈ (normalize_multiple_tests cat θ
          ((parse_multiple_lines tests_raw).filter (fun x => x.value.isSome))).tests,
        guardFound cat.alias_map (lowerStr (joinSp tests_raw)) t.name = false →
        t ∉ (process_tests cat θ tests_raw ec).tests ∧
        t.name ∈ ((process_tests cat θ tests_raw ec).guardrail_warnings.getD []))) ∧
    ((process_tests cat θ tests_raw ec).status ≠ str (r"ok") →
      (process_tests cat θ tests_raw ec).tests = []) := by
  by_cases h0 : tests_raw = []
  · simp only [process_tests, h0, if_pos, ite_true]
    exact ⟨fun hst => absurd hst (by decide), fun _ => trivial⟩
  · by_cases h1 : (parse_multiple_lines tests_raw).filter (fun t => t.value.isSome) = []
    · simp only [process_tests, h0, h1, if_neg, if_pos, ite_true, ite_false]
      exact ⟨fun hst => absurd hst (by decide), fun _ => trivial⟩
    · by_cases h2 : (normalize_multiple_tests cat θ
          ((parse_multiple_lines tests_raw).filter (fun x => x.value.isSome))).status ≠ str (r"ok") ∨
          (normalize_multiple_tests cat θ
            ((parse_multiple_lines tests_raw).filter (fun x => x.value.isSome))).tests = []
      · have htests : (normalize_multiple_tests cat θ
            ((parse_multiple_lines tests_raw).filter (fun x => x.value.isSome))).tests = [] := by
          rcases h2 with h2 | h2
          · by_contra hne
            exact h2 ((normalize_multiple_status cat θ _).mpr hne)
          · exact h2
        simp only [process_tests, h0, h1, h2, if_neg, if_pos, ite_true, ite_false]
        exact ⟨fun hst => absurd hst (by decide), fun _ => htests⟩
      · simp only [process_tests, h0, h1, h2, if_neg, if_pos, ite_true, ite_false]
        push_neg at h2
        constructor
        · intro _
          constructor
          · intro t ht
            by_cases hhall : guardrail_check cat tests_raw (normalize_multiple_tests cat θ
                ((parse_multiple_lines tests_raw).filter (fun x => x.value.isSome))).tests ≠ []
            · rw [if_pos hhall] at ht
              by_contra hfound
              have hf : guardFound cat.alias_map (lowerStr (joinSp tests_raw)) t.name = false :=
                Bool.eq_false_iff.mpr hfound
              have hmem := List.mem_filter.mp ht
              have hhl := mem_guardrail_of_notFound cat tests_raw _ t hmem.1 hf
              have := hmem.2
              simp only [decide_eq_true_eq] at this
              exact this (List.contains_iff_exists_mem_beq.mpr
                ⟨t.name, hhl, by simp⟩)
            · rw [if_neg hhall] at ht
              push_neg at hhall
              by_contra hfound
              have hf : guardFound cat.alias_map (lowerStr (joinSp tests_raw)) t.name = false :=
                Bool.eq_false_iff.mpr hfound
              have hhl := mem_guardrail_of_notFound cat tests_raw _ t ht hf
              rw [hhall] at hhl
              exact absurd hhl (List.not_mem_nil _)
          · intro t ht hf
            have hhl := mem_guardrail_of_notFound cat tests_raw _ t ht hf
            have hhallne : guardrail_check cat tests_raw (normalize_multiple_tests cat θ
                ((parse_multiple_lines tests_raw).filter (fun x => x.value.isSome))).tests ≠ [] := by
              intro hc; rw [hc] at hhl; exact absurd hhl (List.not_mem_nil _)
            rw [if_pos hhallne]
            constructor
            · intro hmem
              have := (List.mem_filter.mp hmem).2
              simp only [decide_eq_true_eq] at this
              exact this (List.contains_iff_exists_mem_beq.mpr ⟨t.name, hhl, by simp⟩)
            · exact hhl
        · intro hst; exact absurd rfl hst

/-- Batch fixture: three Hemoglobin lines. -/
def exBatch : List Str :=
  [str (r"Hemoglobin 1 g/dL"), str (r"Hemoglobin 2.9 g/dL"), str (r"Hemoglobin 1.5 g/dL")]

/-- Witness for C1 at the Hemoglobin batch. -/
theorem C1_witness :
    (∀ t ∈ (process_tests testCatalog 80 exBatch 0.95).tests,
      guardFound testCatalog.alias_map (lowerStr (joinSp exBatch)) t.name = true) ∧
    (∀ t ∈ (normalize_multiple_tests testCatalog 80
        ((parse_multiple_lines exBatch).filter (fun x => x.value.isSome))).tests,
      guardFound testCatalog.alias_map (lowerStr (joinSp exBatch)) t.name = false →
      t ∉ (process_tests testCatalog 80 exBatch 0.95).tests ∧
      t.name ∈ ((process_tests testCatalog 80 exBatch 0.95).guardrail_warnings.getD [])) :=
  (C1_guardrail testCatalog 80 exBatch 0.95).1 (by decide)

/-- C3 (amended: the batch confidence is the arithmetic mean rounded to two
decimal places).  The batch operation is total and well formed on every input
list of lines: the empty batch and the parse-failure state return exact
distinguished records, the status is always one of the four terminal
statuses, a candidate whose normalization fails is recorded among the failed
tests while the remaining candidates still normalize (the emitted tests are
exactly the ok outcomes in input order), and the batch confidence equals the
rounded mean of normalizationConfidence over the normalized tests, 0 when
none normalized. -/
theorem C3_batch_behavior (cat : Catalog) (θ : ℚ) (tests_raw : List Str) (ec : ℚ) :
    (process_tests cat θ [] ec =
      ⟨str (r"no_tests_found"), [], none, none, some ec, none, none, none, none,
       some (str (r"extraction"))⟩) ∧
    ((process_tests cat θ tests_raw ec).status = str (r"no_tests_found") ∨
     (process_tests cat θ tests_raw ec).status = str (r"parse_failed") ∨
     (process_tests cat θ tests_raw ec).status = str (r"normalization_failed") ∨
     (process_tests cat θ tests_raw ec).status = str (r"ok")) ∧
    (tests_raw ≠ [] →
      (parse_multiple_lines tests_raw).filter (fun x => x.value.isSome) = [] →
      process_tests cat θ tests_raw ec =
        ⟨str (r"parse_failed"), [], none, none, some ec, none, none, none, none,
         some (str (r"parser"))⟩) ∧
    (tests_raw ≠ [] →
      (parse_multiple_lines tests_raw).filter (fun x => x.value.isSome) ≠ [] →
      (normalize_multiple_tests cat θ
        ((parse_multiple_lines tests_raw).filter (fun x => x.value.isSome))).tests = [] →
      (process_tests cat θ tests_raw ec).status = str (r"normalization_failed") ∧
      (process_tests cat θ tests_raw ec).tests = [] ∧
      (process_tests cat θ tests_raw ec).normalization_confidence =
        some (normalize_multiple_tests cat θ
          ((parse_multiple_lines tests_raw).filter (fun x => x.value.isSome))).normalization_confidence ∧
      (process_tests cat θ tests_raw ec).failed_tests =
        some (normalize_multiple_tests cat θ
          ((parse_multiple_lines tests_raw).filter (fun x => x.value.isSome))).failed_tests) ∧
    (tests_raw ≠ [] →
      (normalize_multiple_tests cat θ
        ((parse_multiple_lines tests_raw).filter (fun x => x.value.isSome))).tests ≠ [] →
      (process_tests cat θ tests_raw ec).status = str (r"ok") ∧
      (process_tests cat θ tests_raw ec).normalization_confidence =
        some (round2 (normalize_multiple_tests cat θ
          ((parse_multiple_lines tests_raw).filter (fun x => x.value.isSome))).normalization_confidence) ∧
      (process_tests cat θ tests_raw ec).failed_tests =
        some (normalize_multiple_tests cat θ
          ((parse_multiple_lines tests_raw).filter (fun x => x.value.isSome))).failed_tests) ∧
    (∀ pt ∈ (parse_multiple_lines tests_raw).filter (fun x => x.value.isSome),
      (∀ t, normalize_test cat θ pt ≠ NormOutcome.ok t) →
      (⟨pt.raw_line, outcomeReason (normalize_test cat θ pt), 0⟩ : FailedTest) ∈
        (normalize_multiple_tests cat θ
          ((parse_multiple_lines tests_raw).filter (fun x => x.value.isSome))).failed_tests) ∧
    ((normalize_multiple_tests cat θ
        ((parse_multiple_lines tests_raw).filter (fun x => x.value.isSome))).tests =
      ((parse_multiple_lines tests_raw).filter (fun x => x.value.isSome)).filterMap
        (fun pt => match normalize_test cat θ pt with
          | NormOutcome.ok t => some t
          | _ => none)) ∧
    ((normalize_multiple_tests cat θ
        ((parse_multiple_lines tests_raw).filter (fun x => x.value.isSome))).tests = [] →
      (normalize_multiple_tests cat θ
        ((parse_multiple_lines tests_raw).filter (fun x => x.value.isSome))).normalization_confidence = 0) ∧
    ((normalize_multiple_tests cat θ
        ((parse_multiple_lines tests_raw).filter (fun x => x.value.isSome))).tests ≠ [] →
      (normalize_multiple_tests cat θ
        ((parse_multiple_lines tests_raw).filter (fun x => x.value.isSome))).normalization_confidence =
        round2 ((((normalize_multiple_tests cat θ
          ((parse_multiple_lines tests_raw).filter (fun x => x.value.isSome))).tests.map
            (fun t => t.normalization_confidence)).sum) /
          ((normalize_multiple_tests cat θ
            ((parse_multiple_lines tests_raw).filter (fun x => x.value.isSome))).tests.length : ℚ))) := by
  set valid := (parse_multiple_lines tests_raw).filter (fun x => x.value.isSome) with hvalid
  have htests_eq : (normalize_multiple_tests cat θ valid).tests =
      valid.filterMap (fun pt => match normalize_test cat θ pt with
        | NormOutcome.ok t => some t
        | _ => none) := by
    unfold normalize_multiple_tests
    simp only [List.filterMap_map]
    rfl
  have hconf_eq : (normalize_multiple_tests cat θ valid).normalization_confidence =
      round2 (if (normalize_multiple_tests cat θ valid).tests ≠ [] then
        (((normalize_multiple_tests cat θ valid).tests.map
          (fun t => t.normalization_confidence)).sum) /
          ((normalize_multiple_tests cat θ valid).tests.length : ℚ)
      else 0) := by
    unfold normalize_multiple_tests
    simp only []
  refine ⟨rfl, ?_, ?_, ?_, ?_, ?_, htests_eq, ?_, ?_⟩
  · by_cases h0 : tests_raw = []
    · left
      simp only [process_tests, h0, ite_true, if_pos]
    · by_cases h1 : valid = []
      · right; left
        simp only [process_tests]
        rw [if_neg h0, if_pos h1]
      · by_cases h2 : (normalize_multiple_tests cat θ valid).status ≠ str (r"ok") ∨
            (normalize_multiple_tests cat θ valid).tests = []
        · right; right; left
          simp only [process_tests]
          rw [if_neg h0, if_neg h1, if_pos h2]
        · right; right; right
          simp only [process_tests]
          rw [if_neg h0, if_neg h1, if_neg h2]
  · intro h0 h1
    simp only [process_tests]
    rw [if_neg h0, if_pos h1]
  · intro h0 h1 h2
    simp only [process_tests]
    rw [if_neg h0, if_neg h1, if_pos (Or.inr h2)]
    exact ⟨rfl, h2, rfl, rfl⟩
  · intro h0 hnr
    have h1 : valid ≠ [] := by
      intro hv
      rw [htests_eq, hv] at hnr
      exact hnr rfl
    have hst : (normalize_multiple_tests cat θ valid).status = str (r"ok") :=
      (normalize_multiple_status cat θ valid).mpr hnr
    simp only [process_tests]
    rw [if_neg h0, if_neg h1, if_neg (by
      rintro (hbad | hbad)
      · exact hbad hst
      · exact hnr hbad)]
    exact ⟨rfl, rfl, rfl⟩
  · intro pt hpt hno
    unfold normalize_multiple_tests
    simp only [List.filterMap_map]
    refine List.mem_filterMap.mpr ⟨pt, hpt, ?_⟩
    cases ho : normalize_test cat θ pt with
    | ok t => exact absurd ho (hno t)
    | failed reason => rw [Function.comp_apply, ho]
    | error msg => rw [Function.comp_apply, ho]
  · intro h
    rw [hconf_eq, if_neg (not_not_intro h)]
    decide
  · intro h
    rw [hconf_eq, if_pos h]

/-- Witness for C3: the Hemoglobin batch reaches the ok state with the rounded
batch confidence and recorded failed tests. -/
theorem C3_witness :
    (process_tests testCatalog 80 exBatch 0.95).status = str (r"ok") ∧
    (process_tests testCatalog 80 exBatch 0.95).normalization_confidence =
      some (round2 (normalize_multiple_tests testCatalog 80
        ((parse_multiple_lines exBatch).filter (fun x => x.value.isSome))).normalization_confidence) ∧
    (process_tests testCatalog 80 exBatch 0.95).failed_tests =
      some (normalize_multiple_tests testCatalog 80
        ((parse_multiple_lines exBatch).filter (fun x => x.value.isSome))).failed_tests :=
  (C3_batch_behavior testCatalog 80 exBatch 0.95).2.2.2.2.1 (by decide) (by decide)

/-- Counterexample to C3 as stated: for the Hemoglobin batch the three per-test
confidences are 0.92, 0.89 and 0.93, whose mean is 137/150, but the emitted
batch confidence is the rounded 0.91. -/
theorem C3_counterexample :
    (normalize_multiple_tests testCatalog 80
      ((parse_multiple_lines exBatch).filter (fun x => x.value.isSome))).normalization_confidence
        = 0.91 ∧
    (((normalize_multiple_tests testCatalog 80
        ((parse_multiple_lines exBatch).filter (fun x => x.value.isSome))).tests.map
          (fun t => t.normalization_confidence)).sum) /
      (((normalize_multiple_tests testCatalog 80
        ((parse_multiple_lines exBatch).filter (fun x => x.value.isSome))).tests.length : ℚ))
        = 137/150 ∧
    (0.91 : ℚ) ≠ 137/150 :=
  ⟨by decide, by decide, by norm_num⟩

lemma mem_matchList_eps {s s' : Str} {caps : Caps} :
    (s', caps) ∈ matchList .eps s ↔ s' = s ∧ caps = [] := by
  simp [matchList, eq_comm]

lemma mem_matchList_chr {p : Char → Bool} {s s' : Str} {caps : Caps} :
    (s', caps) ∈ matchList (.chr p) s ↔ ∃ c, s = c :: s' ∧ p c = true ∧ caps = [] := by
  cases s with
  | nil =>
    simp only [matchList, List.not_mem_nil, false_iff, not_exists]
    rintro c ⟨hc, _, _⟩
    exact List.noConfusion hc
  | cons c rest =>
    simp only [matchList]
    by_cases hc : p c
    · rw [if_pos hc]
      simp only [List.mem_singleton, Prod.mk.injEq]
      constructor
      · rintro ⟨rfl, rfl⟩
        exact ⟨c, rfl, hc, rfl⟩
      · rintro ⟨d, hd, hpd, rfl⟩
        injection hd with h1 h2
        subst h2
        exact ⟨rfl, rfl⟩
    · rw [if_neg hc]
      simp only [List.not_mem_nil, false_iff, not_exists]
      rintro d ⟨hd, hpd, _⟩
      injection hd with h1 _
      subst h1
      exact hc hpd

lemma mem_matchList_cat {a b : RE} {s s' : Str} {caps : Caps} :
    (s', caps) ∈ matchList (.cat a b) s ↔
    ∃ s₁ c₁ c₂, (s₁, c₁) ∈ matchList a s ∧ (s', c₂) ∈ matchList b s₁ ∧ caps = c₁ ++ c₂ := by
  constructor
  · intro h
    simp only [matchList] at h
    obtain ⟨⟨s₁, c₁⟩, hx, hy⟩ := List.mem_flatMap.mp h
    obtain ⟨⟨s₂, c₂⟩, hy1, hy2⟩ := List.mem_map.mp hy
    injection hy2 with h1 h2
    subst h1
    exact ⟨s₁, c₁, c₂, hx, hy1, h2.symm⟩
  · rintro ⟨s₁, c₁, c₂, h1, h2, rfl⟩
    simp only [matchList]
    exact List.mem_flatMap.mpr ⟨⟨s₁, c₁⟩, h1, List.mem_map.mpr ⟨⟨s', c₂⟩, h2, rfl⟩⟩

lemma mem_matchList_alt {a b : RE} {s s' : Str} {caps : Caps} :
    (s', caps) ∈ matchList (.alt a b) s ↔
    (s', caps) ∈ matchList a s ∨ (s', caps) ∈ matchList b s := by
  simp [matchList]

lemma mem_matchList_optG {a : RE} {s s' : Str} {caps : Caps} :
    (s', caps) ∈ matchList (.optG a) s ↔
    (s', caps) ∈ matchList a s ∨ (s' = s ∧ caps = []) := by
  simp only [matchList, List.mem_append, List.mem_singleton, Prod.mk.injEq]

lemma mem_matchList_grp {i : Nat} {a : RE} {s s' : Str} {caps : Caps} :
    (s', caps) ∈ matchList (.grp i a) s ↔
    ∃ c, (s', c) ∈ matchList a s ∧ caps = (i, s.take (s.length - s'.length)) :: c := by
  simp only [matchList, List.mem_map]
  constructor
  · rintro ⟨⟨s₂, c₂⟩, hm, he⟩
    injection he with h1 h2
    subst h1
    exact ⟨c₂, hm, h2.symm⟩
  · rintro ⟨c, hm, rfl⟩
    exact ⟨⟨s', c⟩, hm, rfl⟩

lemma take_all_p (p : Char → Bool) :
    ∀ (s : Str) (j : Nat), j ≤ (s.takeWhile p).length → ∀ c ∈ s.take j, p c = true := by
  intro s
  induction s with
  | nil => intro j _ c hc; simp at hc
  | cons a as ih =>
    intro j hj c hc
    cases j with
    | zero => simp at hc
    | succ j' =>
      by_cases hp : p a
      · rw [List.takeWhile_cons_of_pos hp, List.length_cons, Nat.succ_le_succ_iff] at hj
        simp only [List.take_succ_cons, List.mem_cons] at hc
        rcases hc with rfl | hc
        · exact hp
        · exact ih j' hj c hc
      · rw [List.takeWhile_cons_of_neg hp, List.length_nil] at hj
        omega
  
lemma length_le_takeWhile (p : Char → Bool) :
    ∀ (t s' : Str), (∀ c ∈ t, p c = true) → t.length ≤ ((t ++ s').takeWhile p).length := by
  intro t
  induction t with
  | nil => intro s' _; simp
  | cons a as ih =>
    intro s' h
    have hp : p a = true := h a (List.mem_cons_self a as)
    rw [List.cons_append, List.takeWhile_cons_of_pos hp, List.length_cons,
      List.length_cons, Nat.succ_le_succ_iff]
    exact ih s' (fun c hc => h c (List.mem_cons_of_mem a hc))

lemma mem_matchList_starL {p : Char → Bool} {s s' : Str} {caps : Caps} :
    (s', caps) ∈ matchList (.starL p) s ↔
    caps = [] ∧ ∃ t, s = t ++ s' ∧ ∀ c ∈ t, p c = true := by
  simp only [matchList, List.mem_map, List.mem_range]
  constructor
  · rintro ⟨j, hj, he⟩
    injection he with h1 h2
    subst h2
    refine ⟨rfl, s.take j, (List.take_append_drop j s).symm.trans (by rw [h1]), ?_⟩
    exact take_all_p p s j (by omega)
  · rintro ⟨rfl, t, rfl, ht⟩
    refine ⟨t.length, ?_, ?_⟩
    · have := length_le_takeWhile p t s' ht
      omega
    · rw [List.drop_left]

lemma mem_matchList_starG {p : Char → Bool} {s s' : Str} {caps : Caps} :
    (s', caps) ∈ matchList (.starG p) s ↔
    caps = [] ∧ ∃ t, s = t ++ s' ∧ ∀ c ∈ t, p c = true := by
  simp only [matchList, List.mem_map, List.mem_range]
  constructor
  · rintro ⟨k, hk, he⟩
    injection he with h1 h2
    subst h2
    refine ⟨rfl, s.take ((s.takeWhile p).length - k),
      (List.take_append_drop _ s).symm.trans (by rw [h1]), ?_⟩
    exact take_all_p p s _ (by omega)
  · rintro ⟨rfl, t, rfl, ht⟩
    have hle := length_le_takeWhile p t s' ht
    refine ⟨((t ++ s').takeWhile p).length - t.length, by omega, ?_⟩
    have : ((t ++ s').takeWhile p).length - (((t ++ s').takeWhile p).length - t.length)
        = t.length := by omega
    rw [this, List.drop_left]

lemma mem_matchList_plusL {p : Char → Bool} {s s' : Str} {caps : Caps} :
    (s', caps) ∈ matchList (.plusL p) s ↔
    caps = [] ∧ ∃ t, s = t ++ s' ∧ t ≠ [] ∧ ∀ c ∈ t, p c = true := by
  unfold RE.plusL
  rw [mem_matchList_cat]
  constructor
  · rintro ⟨s₁, c₁, c₂, h1, h2, rfl⟩
    obtain ⟨c, rfl, hpc, rfl⟩ := mem_matchList_chr.mp h1
    obtain ⟨rfl, t, rfl, ht⟩ := mem_matchList_starL.mp h2
    refine ⟨rfl, c :: t, rfl, by simp, ?_⟩
    intro d hd
    rcases List.mem_cons.mp hd with rfl | hd
    · exact hpc
    · exact ht d hd
  · rintro ⟨rfl, t, rfl, htne, ht⟩
    cases t with
    | nil => exact absurd rfl htne
    | cons c t' =>
      refine ⟨t' ++ s', [], [], ?_, ?_, rfl⟩
      · exact mem_matchList_chr.mpr ⟨c, rfl, ht c (List.mem_cons_self c t'), rfl⟩
      · exact mem_matchList_starL.mpr ⟨rfl, t', rfl, fun d hd => ht d (List.mem_cons_of_mem c hd)⟩

lemma mem_matchList_plusG {p : Char → Bool} {s s' : Str} {caps : Caps} :
    (s', caps) ∈ matchList (.plusG p) s ↔
    caps = [] ∧ ∃ t, s = t ++ s' ∧ t ≠ [] ∧ ∀ c ∈ t, p c = true := by
  unfold RE.plusG
  rw [mem_matchList_cat]
  constructor
  · rintro ⟨s₁, c₁, c₂, h1, h2, rfl⟩
    obtain ⟨c, rfl, hpc, rfl⟩ := mem_matchList_chr.mp h1
    obtain ⟨rfl, t, rfl, ht⟩ := mem_matchList_starG.mp h2
    refine ⟨rfl, c :: t, rfl, by simp, ?_⟩
    intro d hd
    rcases List.mem_cons.mp hd with rfl | hd
    · exact hpc
    · exact ht d hd
  · rintro ⟨rfl, t, rfl, htne, ht⟩
    cases t with
    | nil => exact absurd rfl htne
    | cons c t' =>
      refine ⟨t' ++ s', [], [], ?_, ?_, rfl⟩
      · exact mem_matchList_chr.mpr ⟨c, rfl, ht c (List.mem_cons_self c t'), rfl⟩
      · exact mem_matchList_starG.mpr ⟨rfl, t', rfl, fun d hd => ht d (List.mem_cons_of_mem c hd)⟩

lemma mem_matchList_lit {w : Str} : ∀ {s s' : Str} {caps : Caps},
    ((s', caps) ∈ matchList (.lit w) s ↔ s = w ++ s' ∧ caps = []) := by
  induction w with
  | nil =>
    intro s s' caps
    unfold RE.lit
    simp only [List.foldr_nil, mem_matchList_eps, List.nil_append, eq_comm]
  | cons c w' ih =>
    intro s s' caps
    have hdef : RE.lit (c :: w') = .cat (.chr (fun d => d = c)) (.lit w') := rfl
    rw [hdef, mem_matchList_cat]
    constructor
    · rintro ⟨s₁, c₁, c₂, h1, h2, rfl⟩
      obtain ⟨d, rfl, hd, rfl⟩ := mem_matchList_chr.mp h1
      obtain ⟨rfl, rfl⟩ := ih.mp h2
      have : d = c := by simpa using hd
      subst this
      exact ⟨rfl, rfl⟩
    · rintro ⟨rfl, rfl⟩
      refine ⟨w' ++ s', [], [], ?_, ih.mpr ⟨rfl, rfl⟩, rfl⟩
      exact mem_matchList_chr.mpr ⟨c, rfl, by simp, rfl⟩

/-- Characters a pattern can possibly consume. -/
def canEat : RE → Char → Bool
  | .eps, _ => false
  | .chr p, c => p c
  | .cat a b, c => canEat a c || canEat b c
  | .alt a b, c => canEat a c || canEat b c
  | .starG p, c => p c
  | .starL p, c => p c
  | .optG a, c => canEat a c
  | .grp _ a, c => canEat a c

lemma matchList_consumed {re : RE} : ∀ {s s' : Str} {caps : Caps},
    (s', caps) ∈ matchList re s →
    ∃ t, s = t ++ s' ∧ ∀ c ∈ t, canEat re c = true := by
  induction re with
  | eps =>
    intro s s' caps h
    obtain ⟨rfl, _⟩ := mem_matchList_eps.mp h
    exact ⟨[], rfl, by simp⟩
  | chr p =>
    intro s s' caps h
    obtain ⟨c, rfl, hc, _⟩ := mem_matchList_chr.mp h
    exact ⟨[c], rfl, by simpa [canEat]⟩
  | cat a b iha ihb =>
    intro s s' caps h
    obtain ⟨s₁, c₁, c₂, h1, h2, rfl⟩ := mem_matchList_cat.mp h
    obtain ⟨t₁, rfl, ht₁⟩ := iha h1
    obtain ⟨t₂, rfl, ht₂⟩ := ihb h2
    refine ⟨t₁ ++ t₂, by rw [List.append_assoc], ?_⟩
    intro c hc
    rcases List.mem_append.mp hc with hc | hc
    · simp [canEat, ht₁ c hc]
    · simp [canEat, ht₂ c hc]
  | alt a b iha ihb =>
    intro s s' caps h
    rcases mem_matchList_alt.mp h with h | h
    · obtain ⟨t, rfl, ht⟩ := iha h
      exact ⟨t, rfl, fun c hc => by simp [canEat, ht c hc]⟩
    · obtain ⟨t, rfl, ht⟩ := ihb h
      exact ⟨t, rfl, fun c hc => by simp [canEat, ht c hc]⟩
  | starG p =>
    intro s s' caps h
    obtain ⟨_, t, rfl, ht⟩ := mem_matchList_starG.mp h
    exact ⟨t, rfl, ht⟩
  | starL p =>
    intro s s' caps h
    obtain ⟨_, t, rfl, ht⟩ := mem_matchList_starL.mp h
    exact ⟨t, rfl, ht⟩
  | optG a iha =>
    intro s s' caps h
    rcases mem_matchList_optG.mp h with h | ⟨rfl, _⟩
    · obtain ⟨t, rfl, ht⟩ := iha h
      exact ⟨t, rfl, ht⟩
    · exact ⟨[], rfl, by simp⟩
  | grp i a iha =>
    intro s s' caps h
    obtain ⟨c, hm, rfl⟩ := mem_matchList_grp.mp h
    obtain ⟨t, rfl, ht⟩ := iha hm
    exact ⟨t, rfl, ht⟩

lemma fullMatchCaps_eq_some (re : RE) (s : Str) (caps₀ : Caps)
    (hex : (([] : Str), caps₀) ∈ matchList re s)
    (huniq : ∀ c, (([] : Str), c) ∈ matchList re s → c = caps₀) :
    fullMatchCaps re s = some caps₀ := by
  unfold fullMatchCaps
  have hmem : (([] : Str), caps₀) ∈ (matchList re s).filter (fun x => decide (x.1 = [])) :=
    List.mem_filter.mpr ⟨hex, by simp⟩
  cases hl : (matchList re s).filter (fun x => decide (x.1 = [])) with
  | nil => rw [hl] at hmem; exact absurd hmem (List.not_mem_nil _)
  | cons y ys =>
    have hy : y ∈ (matchList re s).filter (fun x => decide (x.1 = [])) :=
      hl ▸ List.mem_cons_self y ys
    have hy2 := List.mem_filter.mp hy
    have hy1 : y.1 = [] := by simpa using hy2.2
    have hyc : y.2 = caps₀ := by
      apply huniq y.2
      have hmm : (y.1, y.2) ∈ matchList re s := by rw [Prod.mk.eta]; exact hy2.1
      rwa [hy1] at hmm
    simp [hyc]

lemma fullMatchCaps_eq_none (re : RE) (s : Str)
    (h : ∀ c, (([] : Str), c) ∈ matchList re s → False) :
    fullMatchCaps re s = none := by
  unfold fullMatchCaps
  have : (matchList re s).filter (fun x => decide (x.1 = [])) = [] := by
    rw [List.filter_eq_nil_iff]
    intro x hx hpred
    have hx1 : x.1 = [] := by simpa using hpred
    refine h x.2 ?_
    have hmm : (x.1, x.2) ∈ matchList re s := by rw [Prod.mk.eta]; exact hx
    rwa [hx1] at hmm
  rw [this]
  rfl

/-- Character order on code points. -/
lemma charLe_iff (a b : Char) : (a ≤ b) ↔ a.toNat ≤ b.toNat := by
  simp [Char.le_def, UInt32.le_def, BitVec.le_def, Char.toNat, UInt32.toNat]

/-- Code points of Python whitespace characters. -/
lemma pyIsSpace_toNat {c : Char} (h : pyIsSpace c = true) :
    c.toNat = 32 ∨ c.toNat = 9 ∨ c.toNat = 10 ∨ c.toNat = 13 ∨ c.toNat = 11 ∨ c.toNat = 12 := by
  unfold pyIsSpace at h
  simp only [Bool.or_eq_true, decide_eq_true_eq] at h
  rcases h with ((((h | h) | h) | h) | h) | h <;> subst h <;> decide

/-- Code points of value-class characters. -/
lemma valCls_toNat {c : Char} (h : valCls c = true) :
    (48 ≤ c.toNat ∧ c.toNat ≤ 57) ∨ c.toNat = 46 ∨ c.toNat = 44 := by
  unfold valCls isDigitAscii at h
  simp only [Bool.or_eq_true, Bool.and_eq_true, decide_eq_true_eq, charLe_iff] at h
  rcases h with (⟨h1, h2⟩ | h) | h
  · exact Or.inl ⟨h1, h2⟩
  · subst h; decide
  · subst h; decide

/-- Code points of name-class characters. -/
lemma nameCls_toNat {c : Char} (h : nameCls c = true) :
    (97 ≤ c.toNat ∧ c.toNat ≤ 122) ∨ (65 ≤ c.toNat ∧ c.toNat ≤ 90) ∨
    c.toNat = 32 ∨ c.toNat = 9 ∨ c.toNat = 10 ∨ c.toNat = 13 ∨ c.toNat = 11 ∨ c.toNat = 12 ∨
    c.toNat = 40 ∨ c.toNat = 41 ∨ c.toNat = 45 := by
  unfold nameCls isAlphaAscii at h
  simp only [Bool.or_eq_true, Bool.and_eq_true, decide_eq_true_eq, charLe_iff] at h
  rcases h with ((((⟨h1, h2⟩ | ⟨h1, h2⟩) | h) | h) | h) | h
  · exact Or.inl ⟨h1, h2⟩
  · exact Or.inr (Or.inl ⟨h1, h2⟩)
  · rcases pyIsSpace_toNat h with h | h | h | h | h | h <;> omega
  · subst h; decide
  · subst h; decide
  · subst h; decide

/-- A name-class character is never a value-class character. -/
lemma nameCls_valCls_false {c : Char} (h1 : nameCls c = true) (h2 : valCls c = true) : False := by
  rcases nameCls_toNat h1 with h | h | h | h | h | h | h | h | h | h | h <;>
    rcases valCls_toNat h2 with hv | hv | hv <;> omega

/-- A whitespace character is never a value-class character. -/
lemma space_valCls_false {c : Char} (h1 : pyIsSpace c = true) (h2 : valCls c = true) : False := by
  rcases pyIsSpace_toNat h1 with h | h | h | h | h | h <;>
    rcases valCls_toNat h2 with hv | hv | hv <;> omega

/-- A value-class character is never a hyphen or en dash. -/
lemma valCls_hyphen_false {c : Char} (h1 : valCls c = true)
    (h2 : (c = '-' || c = '–') = true) : False := by
  simp only [Bool.or_eq_true, decide_eq_true_eq] at h2
  rcases valCls_toNat h1 with hv | hv | hv <;>
    rcases h2 with h2 | h2 <;> subst h2 <;> revert hv <;> decide

/-- A whitespace character is never a hyphen or en dash. -/
lemma space_hyphen_false {c : Char} (h1 : pyIsSpace c = true)
    (h2 : (c = '-' || c = '–') = true) : False := by
  simp only [Bool.or_eq_true, decide_eq_true_eq] at h2
  rcases pyIsSpace_toNat h1 with hv | hv | hv | hv | hv | hv <;>
    rcases h2 with h2 | h2 <;> subst h2 <;> revert hv <;> decide

/-- An ASCII letter is not whitespace. -/
lemma alpha_space_false {c : Char} (h1 : isAlphaAscii c = true) (h2 : pyIsSpace c = true) :
    False := by
  unfold isAlphaAscii at h1
  simp only [Bool.or_eq_true, Bool.and_eq_true, decide_eq_true_eq, charLe_iff] at h1
  have e1 : Char.toNat (('a' : Char)) = 97 := rfl
  have e2 : Char.toNat (('z' : Char)) = 122 := rfl
  have e3 : Char.toNat (('A' : Char)) = 65 := rfl
  have e4 : Char.toNat (('Z' : Char)) = 90 := rfl
  rcases pyIsSpace_toNat h2 with h | h | h | h | h | h <;> rcases h1 with ⟨a1, a2⟩ | ⟨a1, a2⟩ <;>
    omega

/-! ### Range-bearing lines: class conversion helpers -/

/-- Whitespace belongs to the name class. -/
lemma pyIsSpace_nameCls {c : Char} (h : pyIsSpace c = true) : nameCls c = true := by
  simp [nameCls, h]

/-- ASCII letters belong to the name class. -/
lemma alpha_nameCls {c : Char} (h : isAlphaAscii c = true) : nameCls c = true := by
  simp [nameCls, h]

/-- Digits and the dot belong to the value class. -/
lemma digitDot_valCls {c : Char} (h : (isDigitAscii c || c = '.') = true) : valCls c = true := by
  rw [Bool.or_eq_true] at h
  rcases h with h | h <;> simp [valCls, h]

/-- A value-class character is not a name-class character. -/
lemma valCls_not_nameCls {c : Char} (h : valCls c = true) : nameCls c = false := by
  cases hn : nameCls c
  · rfl
  · exact (nameCls_valCls_false hn h).elim

/-- A value-class character is not whitespace. -/
lemma valCls_not_space {c : Char} (h : valCls c = true) : pyIsSpace c = false := by
  cases hn : pyIsSpace c
  · rfl
  · exact (space_valCls_false hn h).elim

/-- A whitespace character is not in the value class. -/
lemma space_not_valCls {c : Char} (h : pyIsSpace c = true) : valCls c = false := by
  cases hn : valCls c
  · rfl
  · exact (space_valCls_false h hn).elim

/-- The head of a list is a member. -/
lemma head?_mem : ∀ {s : Str} {c : Char}, s.head? = some c → c ∈ s := by
  intro s c h
  cases s with
  | nil => exact Option.noConfusion h
  | cons d r =>
    simp only [List.head?_cons, Option.some.injEq] at h
    subst h
    exact List.mem_cons_self _ _

/-- The last element of a list is a member. -/
lemma getLast?_mem : ∀ {s : Str} {c : Char}, s.getLast? = some c → c ∈ s := by
  intro s
  induction s with
  | nil => intro c h; exact Option.noConfusion h
  | cons d r ih =>
    intro c h
    cases r with
    | nil =>
      have h9 : d = c := by simpa [List.getLast?] using h
      subst h9
      exact List.mem_cons_self _ _
    | cons e r2 =>
      rw [List.getLast?_cons_cons] at h
      exact List.mem_cons_of_mem d (ih h)

/-- Unpack an `Option.all` fact at a known value. -/
lemma optAll_some {p : Char → Bool} {o : Option Char} (h : o.all p = true) :
    ∀ c, o = some c → p c = true := by
  intro c hc
  rw [hc] at h
  simpa [Option.all] using h

/-! ### Maximal-run forcing lemmas -/

/-- Two runs of the same character class followed by out-of-class continuations
decompose an append equation uniquely. -/
lemma run_eq (p : Char → Bool) : ∀ (t a R S : Str),
    t ++ R = a ++ S →
    (∀ c ∈ t, p c = true) → (∀ c ∈ a, p c = true) →
    (∀ c, R.head? = some c → p c = false) →
    (∀ c, S.head? = some c → p c = false) →
    t = a ∧ R = S := by
  intro t
  induction t with
  | nil =>
    intro a R S heq _ ha hR _
    cases a with
    | nil => exact ⟨rfl, by simpa using heq⟩
    | cons c a2 =>
      simp only [List.nil_append, List.cons_append] at heq
      subst heq
      have h1 := hR c rfl
      have h2 := ha c (List.mem_cons_self c a2)
      simp [h1] at h2
  | cons c t2 ih =>
    intro a R S heq ht ha hR hS
    cases a with
    | nil =>
      simp only [List.nil_append, List.cons_append] at heq
      have h1 := hS c (by rw [← heq]; rfl)
      have h2 := ht c (List.mem_cons_self c t2)
      simp [h1] at h2
    | cons d a2 =>
      simp only [List.cons_append] at heq
      injection heq with h1 h2
      subst h1
      obtain ⟨he1, he2⟩ := ih a2 R S h2 (fun x hx => ht x (List.mem_cons_of_mem c hx))
        (fun x hx => ha x (List.mem_cons_of_mem c hx)) hR hS
      exact ⟨by rw [he1], he2⟩

/-- A class run on the left of an append equation stops inside a class run
whose continuation starts outside the class. -/
lemma run_stop (p : Char → Bool) : ∀ (t a R S : Str),
    t ++ R = a ++ S →
    (∀ c ∈ t, p c = true) → (∀ c ∈ a, p c = true) →
    (∀ c, S.head? = some c → p c = false) →
    ∃ a2, a = t ++ a2 ∧ R = a2 ++ S := by
  intro t
  induction t with
  | nil =>
    intro a R S heq _ _ _
    exact ⟨a, rfl, by simpa using heq⟩
  | cons c t2 ih =>
    intro a R S heq ht ha hS
    cases a with
    | nil =>
      simp only [List.nil_append, List.cons_append] at heq
      have h1 := hS c (by rw [← heq]; rfl)
      have h2 := ht c (List.mem_cons_self c t2)
      simp [h1] at h2
    | cons d a2 =>
      simp only [List.cons_append] at heq
      injection heq with h1 h2
      subst h1
      obtain ⟨a3, he1, he2⟩ := ih a2 R S h2 (fun x hx => ht x (List.mem_cons_of_mem c hx))
        (fun x hx => ha x (List.mem_cons_of_mem c hx)) hS
      exact ⟨a3, by rw [List.cons_append, he1], he2⟩

/-- A nonempty whitespace run closing a block that equals `name ++ [' ']` is
exactly that single space when the name does not end in whitespace. -/
lemma ws_concat_force {g w n : Str} (hw : w ≠ []) (hws : ∀ c ∈ w, pyIsSpace c = true)
    (hnl : ∀ c, n.getLast? = some c → pyIsSpace c = false)
    (heq : g ++ w = n ++ [' ']) : g = n ∧ w = [' '] := by
  rcases List.eq_nil_or_concat w with rfl | ⟨w2, b, hwb⟩
  · exact absurd rfl hw
  · subst hwb
    rw [List.concat_eq_append, ← List.append_assoc] at heq
    obtain ⟨heq1, heq2⟩ := List.append_inj' heq rfl
    have hb : b = ' ' := by
      have h9 := heq2
      injection h9
    subst hb
    rcases List.eq_nil_or_concat w2 with rfl | ⟨w3, d, hwd⟩
    · exact ⟨by simpa using heq1, rfl⟩
    · subst hwd
      rw [List.concat_eq_append, ← List.append_assoc] at heq1
      have hlast : n.getLast? = some d := by
        rw [← heq1, ← List.head?_reverse]
        simp
      have hd : pyIsSpace d = true := hws d (by simp)
      rw [hnl d hlast] at hd
      exact Bool.noConfusion hd

/-- Head of an append whose first block is a nonempty run violating `p`. -/
lemma head_append_class {p : Char → Bool} {g X : Str} (hg : g ≠ [])
    (hall : ∀ c ∈ g, p c = false) : ∀ c, (g ++ X).head? = some c → p c = false := by
  intro c hc
  cases g with
  | nil => exact absurd rfl hg
  | cons d g2 =>
    simp only [List.cons_append, List.head?_cons, Option.some.injEq] at hc
    subst hc
    exact hall d (List.mem_cons_self d g2)

/-- Head of a cons violating `p`. -/
lemma head_cons_class {p : Char → Bool} {X : Str} {d : Char} (hd : p d = false) :
    ∀ c, (d :: X).head? = some c → p c = false := by
  intro c hc
  simp only [List.head?_cons, Option.some.injEq] at hc
  subst hc
  exact hd

/-- Head of a whitespace run followed by a dash is never in the value class. -/
lemma head_ws_dash {w X : Str} {dash : Char} (hw : ∀ c ∈ w, pyIsSpace c = true)
    (hd : (dash = '-' || dash = '–') = true) :
    ∀ c, (w ++ dash :: X).head? = some c → valCls c = false := by
  intro c hc
  cases w with
  | nil =>
    simp only [List.nil_append, List.head?_cons, Option.some.injEq] at hc
    subst hc
    simp only [Bool.or_eq_true, decide_eq_true_eq] at hd
    rcases hd with rfl | rfl <;> decide
  | cons e w2 =>
    simp only [List.cons_append, List.head?_cons, Option.some.injEq] at hc
    subst hc
    exact space_not_valCls (hw e (List.mem_cons_self e w2))

/-- The prefix a capture group records is the text the group consumed. -/
lemma take_consumed (g s2 : Str) : (g ++ s2).take ((g ++ s2).length - s2.length) = g := by
  have h : (g ++ s2).length - s2.length = g.length := by simp
  rw [h]
  exact List.take_left g s2

/-! ### Identity lemmas for the cleanup passes -/

/-- The comma-cleanup worker is the identity on comma-free strings. -/
lemma cleanCommasAux_id : ∀ (fuel : Nat) (s : Str), s.length ≤ fuel →
    (∀ c ∈ s, c ≠ ',') → cleanCommasAux fuel s = s := by
  intro fuel
  induction fuel with
  | zero =>
    intro s hl _
    cases s with
    | nil => rfl
    | cons c r => simp at hl
  | succ f ih =>
    intro s hl hc
    cases s with
    | nil => rfl
    | cons c r =>
      unfold cleanCommasAux
      rw [if_neg (hc c (List.mem_cons_self c r))]
      rw [ih r (by simpa using hl) (fun x hx => hc x (List.mem_cons_of_mem c hx))]

/-- `re.sub(r",\s*", " ", line)` is the identity on comma-free lines. -/
lemma cleanCommas_id {s : Str} (h : ∀ c ∈ s, c ≠ ',') : cleanCommas s = s :=
  cleanCommasAux_id s.length s le_rfl h

/-- `dropWhile` is the identity when the head fails the predicate. -/
lemma dropWhile_id {p : Char → Bool} {s : Str} (h : ∀ c, s.head? = some c → p c = false) :
    s.dropWhile p = s := by
  cases s with
  | nil => rfl
  | cons c r =>
    have hc := h c rfl
    rw [List.dropWhile_cons_of_neg (by simp [hc])]

/-- `str.strip` is the identity when neither end is whitespace. -/
lemma pyStrip_id {s : Str} (h1 : ∀ c, s.head? = some c → pyIsSpace c = false)
    (h2 : ∀ c, s.getLast? = some c → pyIsSpace c = false) : pyStrip s = s := by
  unfold pyStrip
  rw [dropWhile_id h1]
  rw [dropWhile_id (by intro c hc; exact h2 c (by rwa [List.head?_reverse] at hc))]
  exact List.reverse_reverse s

/-! ### The Standard grammar rejects dotted-low range lines -/

/-- On a range-bearing line whose low bound contains a decimal point, the
Standard pattern has no complete match: the whole tail of the pattern after
the value group is unable to consume a dot, yet the dot of the low bound
always lands beyond the value group. -/
lemma stdRE_no_match {n v lo hi u s : Str} {caps : Caps}
    (hna : ∀ c ∈ n, nameCls c = true)
    (hv : v ≠ []) (hvc : ∀ c ∈ v, valCls c = true)
    (hdot : '.' ∈ lo)
    (hs : s = n ++ (' ' :: (v ++ (' ' :: (lo ++ (' ' :: ('-' :: (' ' :: (hi ++ (' ' :: u))))))))))
    (h : (([] : Str), caps) ∈ matchList stdRE s) : False := by
  unfold stdRE at h
  obtain ⟨s1, cA, cR, hA, hR, -⟩ := mem_matchList_cat.mp h
  obtain ⟨cA1, hA1, -⟩ := mem_matchList_grp.mp hA
  obtain ⟨sa, ca1, ca2, hchr, hplus, -⟩ := mem_matchList_cat.mp hA1
  obtain ⟨ch, rfl, hch, -⟩ := mem_matchList_chr.mp hchr
  obtain ⟨-, t1, rfl, ht1ne, ht1⟩ := mem_matchList_plusL.mp hplus
  obtain ⟨s2, cB, cR2, hB, hR2, -⟩ := mem_matchList_cat.mp hR
  obtain ⟨-, w1, rfl, hw1ne, hw1⟩ := mem_matchList_plusG.mp hB
  obtain ⟨s3, cC, cR3, hC, hR3, -⟩ := mem_matchList_cat.mp hR2
  obtain ⟨cC1, hC1, -⟩ := mem_matchList_grp.mp hC
  obtain ⟨-, g2, rfl, hg2ne, hg2⟩ := mem_matchList_plusG.mp hC1
  obtain ⟨s4, cD, cR4, hD, hR4, -⟩ := mem_matchList_cat.mp hR3
  obtain ⟨-, w2, rfl, hw2⟩ := mem_matchList_starG.mp hD
  obtain ⟨s5, cE, copt, hE, hopt, -⟩ := mem_matchList_cat.mp hR4
  obtain ⟨cE1, hE1, -⟩ := mem_matchList_grp.mp hE
  obtain ⟨-, g3, rfl, hg3⟩ := mem_matchList_starL.mp hE1
  have hs5 : ∀ c ∈ s5, canEat statusTail c = true := by
    rcases mem_matchList_optG.mp hopt with hopt2 | ⟨heq, -⟩
    · obtain ⟨tt, hteq, htc⟩ := matchList_consumed hopt2
      rw [List.append_nil] at hteq
      subst hteq
      exact htc
    · rw [← heq]
      intro c hc
      exact absurd hc (List.not_mem_nil c)
  have E1 : ((ch :: t1) ++ w1) ++ (g2 ++ (w2 ++ (g3 ++ s5)))
      = (n ++ [' ']) ++ (v ++ (' ' :: (lo ++ (' ' :: ('-' :: (' ' :: (hi ++ (' ' :: u)))))))) := by
    simpa [List.append_assoc] using hs
  obtain ⟨-, EQ2⟩ := run_eq nameCls ((ch :: t1) ++ w1) (n ++ [' ']) _ _ E1
    (by
      intro c hc
      rcases List.mem_append.mp hc with hc | hc
      · rcases List.mem_cons.mp hc with rfl | hc
        · exact alpha_nameCls hch
        · exact ht1 c hc
      · exact pyIsSpace_nameCls (hw1 c hc))
    (by
      intro c hc
      rcases List.mem_append.mp hc with hc | hc
      · exact hna c hc
      · have h9 := List.mem_singleton.mp hc
        subst h9
        decide)
    (head_append_class hg2ne (fun c hc => valCls_not_nameCls (hg2 c hc)))
    (head_append_class hv (fun c hc => valCls_not_nameCls (hvc c hc)))
  obtain ⟨v2, -, hrest⟩ := run_stop valCls g2 v _ _ EQ2 hg2 hvc
    (head_cons_class (by decide))
  have hdotmem : ('.' : Char) ∈ w2 ++ (g3 ++ s5) := by
    rw [hrest]
    refine List.mem_append.mpr (Or.inr ?_)
    refine List.mem_cons_of_mem ' ' ?_
    exact List.mem_append.mpr (Or.inl hdot)
  rcases List.mem_append.mp hdotmem with hm | hm
  · exact absurd (hw2 _ hm) (by decide)
  · rcases List.mem_append.mp hm with hm | hm
    · exact absurd (hg3 _ hm) (by decide)
    · exact absurd (hs5 _ hm) (by decide)

/-! ### The WithReference grammar captures name, value and unit uniquely -/

/-- Every complete match of the WithReference pattern against a canonical
range-bearing line records exactly the name, the value and the trailing
unit as its three capture groups. -/
lemma refRE_caps_forced {n v lo hi u s : Str} {caps : Caps}
    (hnl : ∀ c, n.getLast? = some c → pyIsSpace c = false)
    (hna : ∀ c ∈ n, nameCls c = true)
    (hv : v ≠ []) (hvc : ∀ c ∈ v, valCls c = true)
    (hlo : lo ≠ []) (hloc : ∀ c ∈ lo, valCls c = true)
    (hhi : hi ≠ []) (hhic : ∀ c ∈ hi, valCls c = true)
    (huh : ∀ c, u.head? = some c → pyIsSpace c = false)
    (hs : s = n ++ (' ' :: (v ++ (' ' :: (lo ++ (' ' :: ('-' :: (' ' :: (hi ++ (' ' :: u))))))))))
    (h : (([] : Str), caps) ∈ matchList refRE s) :
    caps = [(1, n), (2, v), (3, u)] := by
  unfold refRE at h
  obtain ⟨s1, cA, cR, hA, hR, rfl⟩ := mem_matchList_cat.mp h
  obtain ⟨cA1, hA1, rfl⟩ := mem_matchList_grp.mp hA
  obtain ⟨sa, ca1, ca2, hchr, hplus, rfl⟩ := mem_matchList_cat.mp hA1
  obtain ⟨ch, rfl, hch, rfl⟩ := mem_matchList_chr.mp hchr
  obtain ⟨rfl, t1, rfl, ht1ne, ht1⟩ := mem_matchList_plusL.mp hplus
  obtain ⟨s2, cB, cR2, hB, hR2, rfl⟩ := mem_matchList_cat.mp hR
  obtain ⟨rfl, w1, rfl, hw1ne, hw1⟩ := mem_matchList_plusG.mp hB
  obtain ⟨s3, cC, cR3, hC, hR3, rfl⟩ := mem_matchList_cat.mp hR2
  obtain ⟨cC1, hC1, rfl⟩ := mem_matchList_grp.mp hC
  obtain ⟨rfl, g2, rfl, hg2ne, hg2⟩ := mem_matchList_plusG.mp hC1
  obtain ⟨s4, cD, cR4, hD, hR4, rfl⟩ := mem_matchList_cat.mp hR3
  obtain ⟨rfl, w2, rfl, hw2ne, hw2⟩ := mem_matchList_plusG.mp hD
  obtain ⟨s5, cE, cR5, hE, hR5, rfl⟩ := mem_matchList_cat.mp hR4
  obtain ⟨rfl, b1, rfl, hb1ne, hb1⟩ := mem_matchList_plusG.mp hE
  obtain ⟨s6, cF, cR6, hF, hR6, rfl⟩ := mem_matchList_cat.mp hR5
  obtain ⟨rfl, w3, rfl, hw3⟩ := mem_matchList_starG.mp hF
  obtain ⟨s7, cG, cR7, hG, hR7, rfl⟩ := mem_matchList_cat.mp hR6
  obtain ⟨dash, rfl, hdash, rfl⟩ := mem_matchList_chr.mp hG
  obtain ⟨s8, cH, cR8, hH, hR8, rfl⟩ := mem_matchList_cat.mp hR7
  obtain ⟨rfl, w4, rfl, hw4⟩ := mem_matchList_starG.mp hH
  obtain ⟨s9, cI, cR9, hI, hR9, rfl⟩ := mem_matchList_cat.mp hR8
  obtain ⟨rfl, b2, rfl, hb2ne, hb2⟩ := mem_matchList_plusG.mp hI
  obtain ⟨s10, cJ, cK, hJ, hK, rfl⟩ := mem_matchList_cat.mp hR9
  obtain ⟨rfl, w5, rfl, hw5ne, hw5⟩ := mem_matchList_plusG.mp hJ
  obtain ⟨cK1, hK1, rfl⟩ := mem_matchList_grp.mp hK
  obtain ⟨rfl, g3, rfl, hg3ne, hg3⟩ := mem_matchList_plusG.mp hK1
  simp only [List.append_nil] at hs
  have E1 : ((ch :: t1) ++ w1) ++ (g2 ++ (w2 ++ (b1 ++ (w3 ++ dash :: (w4 ++ (b2 ++ (w5 ++ g3)))))))
      = (n ++ [' ']) ++ (v ++ (' ' :: (lo ++ (' ' :: ('-' :: (' ' :: (hi ++ (' ' :: u)))))))) := by
    simpa [List.append_assoc] using hs
  obtain ⟨EQ1, EQ2⟩ := run_eq nameCls ((ch :: t1) ++ w1) (n ++ [' ']) _ _ E1
    (by
      intro c hc
      rcases List.mem_append.mp hc with hc | hc
      · rcases List.mem_cons.mp hc with rfl | hc
        · exact alpha_nameCls hch
        · exact ht1 c hc
      · exact pyIsSpace_nameCls (hw1 c hc))
    (by
      intro c hc
      rcases List.mem_append.mp hc with hc | hc
      · exact hna c hc
      · have h9 := List.mem_singleton.mp hc
        subst h9
        decide)
    (head_append_class hg2ne (fun c hc => valCls_not_nameCls (hg2 c hc)))
    (head_append_class hv (fun c hc => valCls_not_nameCls (hvc c hc)))
  obtain ⟨hg1n, -⟩ := ws_concat_force hw1ne hw1 hnl EQ1
  obtain ⟨hg2v, EQ3⟩ := run_eq valCls g2 v _ _ EQ2 hg2 hvc
    (head_append_class hw2ne (fun c hc => space_not_valCls (hw2 c hc)))
    (head_cons_class (by decide))
  have E4 : w2 ++ (b1 ++ (w3 ++ dash :: (w4 ++ (b2 ++ (w5 ++ g3)))))
      = [' '] ++ (lo ++ (' ' :: ('-' :: (' ' :: (hi ++ (' ' :: u)))))) := by
    simpa using EQ3
  obtain ⟨-, EQ5⟩ := run_eq pyIsSpace w2 [' '] _ _ E4 hw2
    (by
      intro c hc
      have h9 := List.mem_singleton.mp hc
      subst h9
      decide)
    (head_append_class hb1ne (fun c hc => valCls_not_space (hb1 c hc)))
    (head_append_class hlo (fun c hc => valCls_not_space (hloc c hc)))
  obtain ⟨-, EQ6⟩ := run_eq valCls b1 lo _ _ EQ5 hb1 hloc
    (head_ws_dash hw3 hdash)
    (head_cons_class (by decide))
  have E7 : w3 ++ (dash :: (w4 ++ (b2 ++ (w5 ++ g3))))
      = [' '] ++ ('-' :: (' ' :: (hi ++ (' ' :: u)))) := by
    simpa using EQ6
  have hdashws : pyIsSpace dash = false := by
    have h9 := hdash
    simp only [Bool.or_eq_true, decide_eq_true_eq] at h9
    rcases h9 with rfl | rfl <;> decide
  obtain ⟨-, EQ8⟩ := run_eq pyIsSpace w3 [' '] _ _ E7 hw3
    (by
      intro c hc
      have h9 := List.mem_singleton.mp hc
      subst h9
      decide)
    (head_cons_class hdashws)
    (head_cons_class (by decide))
  injection EQ8 with hdd EQ9
  have E10 : w4 ++ (b2 ++ (w5 ++ g3)) = [' '] ++ (hi ++ (' ' :: u)) := by
    simpa using EQ9
  obtain ⟨-, EQ11⟩ := run_eq pyIsSpace w4 [' '] _ _ E10 hw4
    (by
      intro c hc
      have h9 := List.mem_singleton.mp hc
      subst h9
      decide)
    (head_append_class hb2ne (fun c hc => valCls_not_space (hb2 c hc)))
    (head_append_class hhi (fun c hc => valCls_not_space (hhic c hc)))
  obtain ⟨hb2hi, EQ12⟩ := run_eq valCls b2 hi _ _ EQ11 hb2 hhic
    (head_append_class hw5ne (fun c hc => space_not_valCls (hw5 c hc)))
    (head_cons_class (by decide))
  cases w5 with
  | nil => exact absurd rfl hw5ne
  | cons e w5t =>
    rw [List.cons_append] at EQ12
    injection EQ12 with he EQ13
    have hg3u : g3 = u := by
      cases w5t with
      | nil => simpa using EQ13
      | cons f w5t2 =>
        exfalso
        have hf : u.head? = some f := by
          rw [← EQ13]
          rfl
        have h1 := huh f hf
        have h2 := hw5 f (by simp)
        rw [h1] at h2
        exact Bool.noConfusion h2
    simp only [List.append_nil, List.nil_append, List.cons_append]
    simp only [← List.cons_append]
    simp only [take_consumed, List.length_nil, Nat.sub_zero, List.take_length]
    rw [hg1n, hg2v, hg3u]


/-- The canonical decomposition of a range-bearing line is a complete match
of the WithReference pattern. -/
lemma refRE_mem_exists {c : Char} {t v lo hi u : Str}
    (hc : isAlphaAscii c = true) (ht : t ≠ []) (hta : ∀ x ∈ t, nameCls x = true)
    (hv : v ≠ []) (hvc : ∀ x ∈ v, valCls x = true)
    (hlo : lo ≠ []) (hloc : ∀ x ∈ lo, valCls x = true)
    (hhi : hi ≠ []) (hhic : ∀ x ∈ hi, valCls x = true)
    (hu : u ≠ []) (huc : ∀ x ∈ u, unitCls x = true) :
    ∃ caps, (([] : Str), caps) ∈ matchList refRE
      (c :: (t ++ (' ' :: (v ++ (' ' :: (lo ++ (' ' :: ('-' :: (' ' :: (hi ++ (' ' :: u))))))))))) := by
  obtain ⟨k11, hk11⟩ : ∃ cc, (([] : Str), cc) ∈ matchList
      (RE.grp 3 (RE.plusG unitCls))
      (u) :=
    ⟨_, mem_matchList_grp.mpr ⟨_, mem_matchList_plusG.mpr ⟨rfl, u, by simp, hu, huc⟩, rfl⟩⟩
  obtain ⟨k10, hk10⟩ : ∃ cc, (([] : Str), cc) ∈ matchList
      ((RE.plusG pyIsSpace).cat (RE.grp 3 (RE.plusG unitCls)))
      (' ' :: u) :=
    ⟨_, mem_matchList_cat.mpr ⟨u, _, _,
      mem_matchList_plusG.mpr ⟨rfl, [' '], rfl, by decide, by decide⟩, hk11, rfl⟩⟩
  obtain ⟨k9, hk9⟩ : ∃ cc, (([] : Str), cc) ∈ matchList
      ((RE.plusG valCls).cat ((RE.plusG pyIsSpace).cat (RE.grp 3 (RE.plusG unitCls))))
      (hi ++ (' ' :: u)) :=
    ⟨_, mem_matchList_cat.mpr ⟨' ' :: u, _, _,
      mem_matchList_plusG.mpr ⟨rfl, hi, rfl, hhi, hhic⟩, hk10, rfl⟩⟩
  obtain ⟨k8, hk8⟩ : ∃ cc, (([] : Str), cc) ∈ matchList
      ((RE.starG pyIsSpace).cat ((RE.plusG valCls).cat ((RE.plusG pyIsSpace).cat (RE.grp 3 (RE.plusG unitCls)))))
      (' ' :: (hi ++ (' ' :: u))) :=
    ⟨_, mem_matchList_cat.mpr ⟨hi ++ (' ' :: u), _, _,
      mem_matchList_starG.mpr ⟨rfl, [' '], rfl, by decide⟩, hk9, rfl⟩⟩
  obtain ⟨k7, hk7⟩ : ∃ cc, (([] : Str), cc) ∈ matchList
      ((RE.chr fun c => c = '-' || c = '–').cat ((RE.starG pyIsSpace).cat ((RE.plusG valCls).cat ((RE.plusG pyIsSpace).cat (RE.grp 3 (RE.plusG unitCls))))))
      ('-' :: (' ' :: (hi ++ (' ' :: u)))) :=
    ⟨_, mem_matchList_cat.mpr ⟨' ' :: (hi ++ (' ' :: u)), _, _,
      mem_matchList_chr.mpr ⟨'-', rfl, by decide, rfl⟩, hk8, rfl⟩⟩
  obtain ⟨k6, hk6⟩ : ∃ cc, (([] : Str), cc) ∈ matchList
      ((RE.starG pyIsSpace).cat ((RE.chr fun c => c = '-' || c = '–').cat ((RE.starG pyIsSpace).cat ((RE.plusG valCls).cat ((RE.plusG pyIsSpace).cat (RE.grp 3 (RE.plusG unitCls)))))))
      (' ' :: ('-' :: (' ' :: (hi ++ (' ' :: u))))) :=
    ⟨_, mem_matchList_cat.mpr ⟨'-' :: (' ' :: (hi ++ (' ' :: u))), _, _,
      mem_matchList_starG.mpr ⟨rfl, [' '], rfl, by decide⟩, hk7, rfl⟩⟩
  obtain ⟨k5, hk5⟩ : ∃ cc, (([] : Str), cc) ∈ matchList
      ((RE.plusG valCls).cat ((RE.starG pyIsSpace).cat ((RE.chr fun c => c = '-' || c = '–').cat ((RE.starG pyIsSpace).cat ((RE.plusG valCls).cat ((RE.plusG pyIsSpace).cat (RE.grp 3 (RE.plusG unitCls))))))))
      (lo ++ (' ' :: ('-' :: (' ' :: (hi ++ (' ' :: u)))))) :=
    ⟨_, mem_matchList_cat.mpr ⟨' ' :: ('-' :: (' ' :: (hi ++ (' ' :: u)))), _, _,
      mem_matchList_plusG.mpr ⟨rfl, lo, rfl, hlo, hloc⟩, hk6, rfl⟩⟩
  obtain ⟨k4, hk4⟩ : ∃ cc, (([] : Str), cc) ∈ matchList
      ((RE.plusG pyIsSpace).cat ((RE.plusG valCls).cat ((RE.starG pyIsSpace).cat ((RE.chr fun c => c = '-' || c = '–').cat ((RE.starG pyIsSpace).cat ((RE.plusG valCls).cat ((RE.plusG pyIsSpace).cat (RE.grp 3 (RE.plusG unitCls)))))))))
      (' ' :: (lo ++ (' ' :: ('-' :: (' ' :: (hi ++ (' ' :: u))))))) :=
    ⟨_, mem_matchList_cat.mpr ⟨lo ++ (' ' :: ('-' :: (' ' :: (hi ++ (' ' :: u))))), _, _,
      mem_matchList_plusG.mpr ⟨rfl, [' '], rfl, by decide, by decide⟩, hk5, rfl⟩⟩
  obtain ⟨k3, hk3⟩ : ∃ cc, (([] : Str), cc) ∈ matchList
      ((RE.grp 2 (RE.plusG valCls)).cat ((RE.plusG pyIsSpace).cat ((RE.plusG valCls).cat ((RE.starG pyIsSpace).cat ((RE.chr fun c => c = '-' || c = '–').cat ((RE.starG pyIsSpace).cat ((RE.plusG valCls).cat ((RE.plusG pyIsSpace).cat (RE.grp 3 (RE.plusG unitCls))))))))))
      (v ++ (' ' :: (lo ++ (' ' :: ('-' :: (' ' :: (hi ++ (' ' :: u)))))))) :=
    ⟨_, mem_matchList_cat.mpr ⟨' ' :: (lo ++ (' ' :: ('-' :: (' ' :: (hi ++ (' ' :: u)))))), _, _,
      mem_matchList_grp.mpr ⟨_, mem_matchList_plusG.mpr ⟨rfl, v, rfl, hv, hvc⟩, rfl⟩, hk4, rfl⟩⟩
  obtain ⟨k2, hk2⟩ : ∃ cc, (([] : Str), cc) ∈ matchList
      ((RE.plusG pyIsSpace).cat ((RE.grp 2 (RE.plusG valCls)).cat ((RE.plusG pyIsSpace).cat ((RE.plusG valCls).cat ((RE.starG pyIsSpace).cat ((RE.chr fun c => c = '-' || c = '–').cat ((RE.starG pyIsSpace).cat ((RE.plusG valCls).cat ((RE.plusG pyIsSpace).cat (RE.grp 3 (RE.plusG unitCls)))))))))))
      (' ' :: (v ++ (' ' :: (lo ++ (' ' :: ('-' :: (' ' :: (hi ++ (' ' :: u))))))))) :=
    ⟨_, mem_matchList_cat.mpr ⟨v ++ (' ' :: (lo ++ (' ' :: ('-' :: (' ' :: (hi ++ (' ' :: u))))))), _, _,
      mem_matchList_plusG.mpr ⟨rfl, [' '], rfl, by decide, by decide⟩, hk3, rfl⟩⟩
  obtain ⟨k1, hk1⟩ : ∃ cc, (([] : Str), cc) ∈ matchList
      ((RE.grp 1 ((RE.chr isAlphaAscii).cat (RE.plusL nameCls))).cat ((RE.plusG pyIsSpace).cat ((RE.grp 2 (RE.plusG valCls)).cat ((RE.plusG pyIsSpace).cat ((RE.plusG valCls).cat ((RE.starG pyIsSpace).cat ((RE.chr fun c => c = '-' || c = '–').cat ((RE.starG pyIsSpace).cat ((RE.plusG valCls).cat ((RE.plusG pyIsSpace).cat (RE.grp 3 (RE.plusG unitCls))))))))))))
      (c :: (t ++ (' ' :: (v ++ (' ' :: (lo ++ (' ' :: ('-' :: (' ' :: (hi ++ (' ' :: u))))))))))) :=
    ⟨_, mem_matchList_cat.mpr ⟨' ' :: (v ++ (' ' :: (lo ++ (' ' :: ('-' :: (' ' :: (hi ++ (' ' :: u)))))))), _, _,
      mem_matchList_grp.mpr ⟨_, mem_matchList_cat.mpr ⟨t ++ (' ' :: (v ++ (' ' :: (lo ++ (' ' :: ('-' :: (' ' :: (hi ++ (' ' :: u))))))))), _, _,
        mem_matchList_chr.mpr ⟨c, rfl, hc, rfl⟩,
        mem_matchList_plusL.mpr ⟨rfl, t, rfl, ht, hta⟩, rfl⟩, rfl⟩, hk2, rfl⟩⟩
  exact ⟨k1, hk1⟩

/-- C5 (amended): on a range-bearing line `name value low-high unit` whose low
bound contains a decimal point, the Standard grammar yields nothing, while the
WithReference grammar captures the first number as the value and only the
trailing unit token as the unit, discarding the embedded reference range. -/
theorem C5_range_line (n v lo hi u : Str) (q : ℚ)
    (hn2 : 2 ≤ n.length)
    (hnh : n.head?.all isAlphaAscii = true)
    (hna : ∀ c ∈ n, nameCls c = true)
    (hnl : n.getLast?.all (fun c => !pyIsSpace c) = true)
    (hv : v ≠ []) (hvc : ∀ c ∈ v, (isDigitAscii c || c = '.') = true)
    (hloc : ∀ c ∈ lo, (isDigitAscii c || c = '.') = true)
    (hdot : '.' ∈ lo)
    (hhi : hi ≠ []) (hhic : ∀ c ∈ hi, (isDigitAscii c || c = '.') = true)
    (hu : u ≠ []) (huc : ∀ c ∈ u, unitCls c = true)
    (huh : u.head?.all (fun c => !pyIsSpace c) = true)
    (hul : u.getLast?.all (fun c => !pyIsSpace c) = true)
    (hq : pyFloat v = some q) :
    try_parse_standard_format
        (n ++ (' ' :: (v ++ (' ' :: (lo ++ (' ' :: ('-' :: (' ' :: (hi ++ (' ' :: u)))))))))) = none ∧
    try_parse_with_reference
        (n ++ (' ' :: (v ++ (' ' :: (lo ++ (' ' :: ('-' :: (' ' :: (hi ++ (' ' :: u)))))))))) =
      some ⟨some n, some q, some u, none,
        n ++ (' ' :: (v ++ (' ' :: (lo ++ (' ' :: ('-' :: (' ' :: (hi ++ (' ' :: u))))))))),
        calculate_confidence n (some q) u none⟩ := by
  have hlo : lo ≠ [] := List.ne_nil_of_mem hdot
  have hvV : ∀ c ∈ v, valCls c = true := fun c hc => digitDot_valCls (hvc c hc)
  have hloV : ∀ c ∈ lo, valCls c = true := fun c hc => digitDot_valCls (hloc c hc)
  have hhiV : ∀ c ∈ hi, valCls c = true := fun c hc => digitDot_valCls (hhic c hc)
  have hnh2 : ∀ c, n.head? = some c → isAlphaAscii c = true := fun c hc => optAll_some hnh c hc
  have hnl2 : ∀ c, n.getLast? = some c → pyIsSpace c = false := by
    intro c hc
    have h9 := optAll_some hnl c hc
    simpa using h9
  have huh2 : ∀ c, u.head? = some c → pyIsSpace c = false := by
    intro c hc
    have h9 := optAll_some huh c hc
    simpa using h9
  have hul2 : ∀ c, u.getLast? = some c → pyIsSpace c = false := by
    intro c hc
    have h9 := optAll_some hul c hc
    simpa using h9
  have hnws : ∀ c, n.head? = some c → pyIsSpace c = false := by
    intro c hc
    have ha := hnh2 c hc
    cases hp : pyIsSpace c
    · rfl
    · exact (alpha_space_false ha hp).elim
  have hvh : ∀ c, v.head? = some c → pyIsSpace c = false :=
    fun c hc => valCls_not_space (hvV c (head?_mem hc))
  have hvl : ∀ c, v.getLast? = some c → pyIsSpace c = false :=
    fun c hc => valCls_not_space (hvV c (getLast?_mem hc))
  have hnc : ∀ x ∈ (n ++ (' ' :: (v ++ (' ' :: (lo ++
      (' ' :: ('-' :: (' ' :: (hi ++ (' ' :: u)))))))))), x ≠ ',' := by
    intro x hx hxe
    subst hxe
    simp at hx
    rcases hx with hx | hx | hx | hx | hx
    · exact absurd (hna _ hx) (by decide)
    · exact absurd (hvc _ hx) (by decide)
    · exact absurd (hloc _ hx) (by decide)
    · exact absurd (hhic _ hx) (by decide)
    · exact absurd (huc _ hx) (by decide)
  have hclean : cleanCommas (n ++ (' ' :: (v ++ (' ' :: (lo ++
      (' ' :: ('-' :: (' ' :: (hi ++ (' ' :: u)))))))))) =
      n ++ (' ' :: (v ++ (' ' :: (lo ++ (' ' :: ('-' :: (' ' :: (hi ++ (' ' :: u)))))))))  :=
    cleanCommas_id hnc
  constructor
  · have hstd : fullMatchCaps stdRE (n ++ (' ' :: (v ++ (' ' :: (lo ++
        (' ' :: ('-' :: (' ' :: (hi ++ (' ' :: u)))))))))) = none := by
      apply fullMatchCaps_eq_none
      intro caps hmem
      exact stdRE_no_match hna hv hvV hdot rfl hmem
    simp only [try_parse_standard_format, hclean, hstd]
  · have href : fullMatchCaps refRE (n ++ (' ' :: (v ++ (' ' :: (lo ++
        (' ' :: ('-' :: (' ' :: (hi ++ (' ' :: u)))))))))) = some [(1, n), (2, v), (3, u)] := by
      cases n with
      | nil => simp at hn2
      | cons c t =>
        have hcAl : isAlphaAscii c = true := hnh2 c rfl
        have ht : t ≠ [] := by
          intro h9
          subst h9
          simp at hn2
        obtain ⟨caps0, hmem⟩ := refRE_mem_exists hcAl ht
          (fun x hx => hna x (List.mem_cons_of_mem c hx)) hv hvV hlo hloV hhi hhiV hu huc
        have hmem2 : (([] : Str), caps0) ∈ matchList refRE
            ((c :: t) ++ (' ' :: (v ++ (' ' :: (lo ++
              (' ' :: ('-' :: (' ' :: (hi ++ (' ' :: u)))))))))) := hmem
        have hforce : caps0 = [(1, c :: t), (2, v), (3, u)] :=
          refRE_caps_forced hnl2 hna hv hvV hlo hloV hhi hhiV huh2 rfl hmem2
        subst hforce
        exact fullMatchCaps_eq_some _ _ _ hmem2
          (fun cc hcc => refRE_caps_forced hnl2 hna hv hvV hlo hloV hhi hhiV huh2 rfl hcc)
    have hname : pyStrip ((capStr [(1, n), (2, v), (3, u)] 1).getD []) = n := by
      rw [show capStr [(1, n), (2, v), (3, u)] 1 = some n from rfl]
      simp only [Option.getD_some]
      exact pyStrip_id hnws hnl2
    have hval : (pyStrip ((capStr [(1, n), (2, v), (3, u)] 2).getD [])).filter
        (fun x => x ≠ ',') = v := by
      rw [show capStr [(1, n), (2, v), (3, u)] 2 = some v from rfl]
      simp only [Option.getD_some]
      rw [pyStrip_id hvh hvl]
      refine List.filter_eq_self.mpr ?_
      intro x hx
      simp only [decide_eq_true_eq]
      intro hxe
      subst hxe
      exact absurd (hvc _ hx) (by decide)
    have hunit : pyStrip ((capStr [(1, n), (2, v), (3, u)] 3).getD []) = u := by
      rw [show capStr [(1, n), (2, v), (3, u)] 3 = some u from rfl]
      simp only [Option.getD_some]
      exact pyStrip_id huh2 hul2
    simp only [try_parse_with_reference, hclean, href, hname, hval, hunit, hq]

/-- Witness for C5: on `Total RBC count 5.2 4.5 - 5.5 mill/cumm` the Standard
grammar fails and the WithReference grammar captures name, value 5.2 and the
trailing unit only. -/
theorem C5_witness :
    try_parse_standard_format (str (r"Total RBC count 5.2 4.5 - 5.5 mill/cumm")) = none ∧
    try_parse_with_reference (str (r"Total RBC count 5.2 4.5 - 5.5 mill/cumm")) =
      some ⟨some (str (r"Total RBC count")), some (26/5), some (str (r"mill/cumm")), none,
        str (r"Total RBC count 5.2 4.5 - 5.5 mill/cumm"),
        calculate_confidence (str (r"Total RBC count")) (some (26/5)) (str (r"mill/cumm")) none⟩ := by
  have h := C5_range_line (str (r"Total RBC count")) (str (r"5.2")) (str (r"4.5"))
    (str (r"5.5")) (str (r"mill/cumm")) (26/5)
    (by decide) (by decide) (by decide) (by decide) (by decide) (by decide) (by decide)
    (by decide) (by decide) (by decide) (by decide) (by decide) (by decide) (by decide)
    (by decide)
  have hline : str (r"Total RBC count") ++ (' ' :: (str (r"5.2") ++ (' ' :: (str (r"4.5") ++
      (' ' :: ('-' :: (' ' :: (str (r"5.5") ++ (' ' :: str (r"mill/cumm")))))))))) =
      str (r"Total RBC count 5.2 4.5 - 5.5 mill/cumm") := by decide
  rw [hline] at h
  exact h

/-- Counterexample to C5 as stated: the integer-bound range line
`WBC 11200 4000 - 11000 /uL` is misread by the Standard grammar, which is
tried first and returns the embedded reference range inside the unit. -/
theorem C5_counterexample :
    (try_parse_standard_format (str (r"WBC 11200 4000 - 11000 /uL"))).map (fun p => p.unit) =
      some (some (str (r"4000 - 11000 /uL"))) ∧
    parse_line (str (r"WBC 11200 4000 - 11000 /uL")) =
      ⟨some (str (r"WBC")), some 11200, some (str (r"4000 - 11000 /uL")), none,
        str (r"WBC 11200 4000 - 11000 /uL"), 0.95⟩ ∧
    substrOf (str (r"4000 - 11000")) (str (r"4000 - 11000 /uL")) = true :=
  ⟨by decide, by decide, by decide⟩
